import Mathlib

/-!
wav-rw: `WavTransceiver`, a minimal RIFF/WAVE reader and writer.

A shallow embedding of `src/wav_transceiver.h` and `src/wav_transceiver.cpp`.

Conventions of the embedding

* A byte is a `Nat` (a file holds values below 256); a file, a buffer and the object
  representation of a struct are `List Nat`.
* `unsigned long` is 32 bits wide and `unsigned short` 16 bits wide (the LLP64 target the source
  is written for: it includes `corecrt.h`, and only there `sizeof(wav_header_t)` is 36 and
  `sizeof(size_dword_t)` is 4). Integers are stored little-endian.
* `std::ifstream` and `std::ofstream` are records holding the file content, the cursor and the
  state bits the code looks at. Buffering is not modelled: the content of an `ofstream` is the
  byte sequence the file holds once the stream is flushed.
* A member function returns the component after the call together with the message of the
  `std::runtime_error` it threw, if any.
-/

namespace WavRW

/-! ## Bytes, C strings and little-endian integers -/

/-- Characters of a string literal; the terminating NUL is what `strncmp` reads past the end. -/
def cstr (s : String) : List Nat := s.toList.map Char.toNat

/-- C `strncmp`: compares at most `n` characters, stopping after a common NUL. A position past
the end of a list reads as NUL. -/
def strncmp : List Nat → List Nat → Nat → Int
  | _, _, 0 => 0
  | s1, s2, n + 1 =>
    if s1.headD 0 ≠ s2.headD 0 then (s1.headD 0 : Int) - (s2.headD 0 : Int)
    else if s1.headD 0 = 0 then 0
    else strncmp s1.tail s2.tail n

/-- Object representation of an `unsigned short`. -/
def u16le (n : Nat) : List Nat := [n % 256, n / 256 % 256]

/-- Object representation of an `unsigned long` (32 bits). -/
def u32le (n : Nat) : List Nat := [n % 256, n / 256 % 256, n / 65536 % 256, n / 16777216 % 256]

/-- The `unsigned short` stored at offset `o` of the memory `m`. -/
def rd16 (m : List Nat) (o : Nat) : Nat := m.getD o 0 + 256 * m.getD (o + 1) 0

/-- The `unsigned long` stored at offset `o` of the memory `m`. -/
def rd32 (m : List Nat) (o : Nat) : Nat :=
  m.getD o 0 + 256 * m.getD (o + 1) 0 + 65536 * m.getD (o + 2) 0 + 16777216 * m.getD (o + 3) 0

/-- The `char[4]` stored at offset `o` of the memory `m`. -/
def rdTag (m : List Nat) (o : Nat) : List Nat :=
  [m.getD o 0, m.getD (o + 1) 0, m.getD (o + 2) 0, m.getD (o + 3) 0]

/-- Object representation of a `char[4]`. -/
def tagBytes (t : List Nat) : List Nat := rdTag t 0

/-- Storing the characters `data` at the start of the buffer `buf`: what a stream read does to
its destination, which keeps every byte the read did not reach. -/
def overwrite (buf data : List Nat) : List Nat := data ++ buf.drop data.length

/-! ## The structs of `wav_transceiver.h` -/

structure riff_chunk_t where
  chunk_id : List Nat
  chunk_size : Nat
  riff_type : List Nat
  deriving DecidableEq

structure fmt_chunk_t where
  chunk_id : List Nat
  chunk_size : Nat
  compression_type : Nat
  channels : Nat
  slice_rate : Nat
  data_rate : Nat
  block_alignment : Nat
  sample_depth : Nat
  deriving DecidableEq

structure data_chunk_t where
  chunk_id : List Nat
  chunk_size : Nat
  deriving DecidableEq

structure wav_header_t where
  riff_chunk : riff_chunk_t
  fmt_chunk : fmt_chunk_t
  deriving DecidableEq

/-- Value of `sizeof(wav_header_t)`: 12 bytes of `riff_chunk_t` and 24 of `fmt_chunk_t`. -/
def sizeof_wav_header_t : Nat := 36

/-- Value of `sizeof(data_chunk_t)`. -/
def sizeof_data_chunk_t : Nat := 8

/-- Value of `sizeof(size_dword_t)`. -/
def sizeof_size_dword_t : Nat := 4

/-- Object representation of a `riff_chunk_t` (12 bytes). -/
def riff_chunk_t.bytes (c : riff_chunk_t) : List Nat :=
  tagBytes c.chunk_id ++ u32le c.chunk_size ++ tagBytes c.riff_type

/-- Object representation of a `fmt_chunk_t` (24 bytes). -/
def fmt_chunk_t.bytes (c : fmt_chunk_t) : List Nat :=
  tagBytes c.chunk_id ++ u32le c.chunk_size ++ u16le c.compression_type ++ u16le c.channels
    ++ u32le c.slice_rate ++ u32le c.data_rate ++ u16le c.block_alignment ++ u16le c.sample_depth

/-- Object representation of a `data_chunk_t` (8 bytes). -/
def data_chunk_t.bytes (c : data_chunk_t) : List Nat :=
  tagBytes c.chunk_id ++ u32le c.chunk_size

/-- Object representation of a `wav_header_t` (36 bytes). -/
def wav_header_t.bytes (h : wav_header_t) : List Nat :=
  h.riff_chunk.bytes ++ h.fmt_chunk.bytes

/-- The `wav_header_t` whose object representation is the memory `m`
(`reinterpret_cast<char*>(header)` seen from the other side). -/
def wav_header_t.ofBytes (m : List Nat) : wav_header_t where
  riff_chunk :=
    { chunk_id := rdTag m 0
      chunk_size := rd32 m 4
      riff_type := rdTag m 8 }
  fmt_chunk :=
    { chunk_id := rdTag m 12
      chunk_size := rd32 m 16
      compression_type := rd16 m 20
      channels := rd16 m 22
      slice_rate := rd32 m 24
      data_rate := rd32 m 28
      block_alignment := rd16 m 32
      sample_depth := rd16 m 34 }

/-- The `size_dword_t` union: the `bytes` member, all `sizeof(size_dword_t)` = 4 of them, of a
union whose `size` member was set. -/
def size_dword_t.bytes (size : Nat) : List Nat := u32le size

/-! ## Streams -/

/-- What the code observes of `std::ifstream`. -/
structure ifstream where
  is_open : Bool
  content : List Nat
  pos : Nat
  eofbit : Bool
  failbit : Bool
  deriving DecidableEq

/-- What the code observes of `std::ofstream`. -/
structure ofstream where
  is_open : Bool
  content : List Nat
  pos : Nat
  failed : Bool
  deriving DecidableEq

/-- What `std::filesystem::exists` and a stream constructor find at a path. -/
structure path_t where
  found : Bool
  opens : Bool
  bytes : List Nat
  deriving DecidableEq

/-- A default-constructed `std::ifstream`. -/
def ifstream.closed : ifstream :=
  { is_open := false, content := [], pos := 0, eofbit := false, failbit := false }

/-- A default-constructed `std::ofstream`. -/
def ofstream.closed : ofstream :=
  { is_open := false, content := [], pos := 0, failed := false }

/-- The stream `std::ifstream(path, binary | in)`: a failed open sets `failbit`. -/
def ifstream.mk_open (p : path_t) : ifstream :=
  if p.opens then { is_open := true, content := p.bytes, pos := 0, eofbit := false, failbit := false }
  else { is_open := false, content := [], pos := 0, eofbit := false, failbit := true }

/-- Member `eof()`. -/
def ifstream.eof (s : ifstream) : Bool := s.eofbit

/-- Member `seekg(off, std::ios::beg)`: clears `eofbit`, then moves unless the stream failed. -/
def ifstream.seekg_beg (s : ifstream) (off : Nat) : ifstream :=
  if s.failbit then { s with eofbit := false } else { s with eofbit := false, pos := off }

/-- Member `read(dst, n)`: the stream after the call and the characters stored in `dst`.
A stream that is not `good()` stores nothing and sets `failbit`. Otherwise up to `n` characters
are taken, none when no file is open; `eofbit` and `failbit` are set only when fewer than `n`
were obtained, so a read that ends exactly at the end of the file sets neither. -/
def ifstream.read (s : ifstream) (n : Nat) : ifstream × List Nat :=
  if s.eofbit || s.failbit then ({ s with failbit := true }, [])
  else
    let got := if s.is_open then (s.content.drop s.pos).take n else []
    if got.length < n then
      ({ s with pos := s.pos + got.length, eofbit := true, failbit := true }, got)
    else ({ s with pos := s.pos + n }, got)

/-- Member `close()`. -/
def ifstream.close (s : ifstream) : ifstream := { s with is_open := false }

/-- The stream `std::ofstream(path, binary | out)`: the file is created empty. -/
def ofstream.mk_open (p : path_t) : ofstream :=
  if p.opens then { is_open := true, content := [], pos := 0, failed := false }
  else { is_open := false, content := [], pos := 0, failed := true }

/-- Storing `data` at offset `pos` of a file: a gap past the end is filled with zeros. -/
def writeAt (content : List Nat) (pos : Nat) (data : List Nat) : List Nat :=
  content.take pos ++ List.replicate (pos - content.length) 0 ++ data
    ++ content.drop (pos + data.length)

/-- Member `write(src, n)` with `data` the `n` characters at `src`. -/
def ofstream.write (s : ofstream) (data : List Nat) : ofstream :=
  if s.failed || !s.is_open then { s with failed := true }
  else { s with content := writeAt s.content s.pos data, pos := s.pos + data.length }

/-- Member `tellp()` converted to `unsigned long`; a failed stream answers `-1`. -/
def ofstream.tellp (s : ofstream) : Nat :=
  if s.failed then 2 ^ 32 - 1 else s.pos % 2 ^ 32

/-- Member `seekp(off, std::ios::beg)`. -/
def ofstream.seekp_beg (s : ofstream) (off : Nat) : ofstream :=
  if s.failed then s else { s with pos := off }

/-- Member `seekp(0, std::ios::end)`. -/
def ofstream.seekp_end (s : ofstream) : ofstream :=
  if s.failed then s else { s with pos := s.content.length }

/-- Member `flush()`: no effect on the byte sequence of the file. -/
def ofstream.flush (s : ofstream) : ofstream := s

/-- Member `close()`. -/
def ofstream.close (s : ofstream) : ofstream := { s with is_open := false }

/-! ## The component -/

/-- The data members of `WavTransceiver` (`write_lock` has no sequential content). -/
structure WavTransceiver where
  input_stream : ifstream
  output_stream : ofstream
  input_header : Option wav_header_t
  output_header : Option wav_header_t
  deriving DecidableEq

/-- The default constructor `WavTransceiver()`. -/
def WavTransceiver.new : WavTransceiver :=
  { input_stream := ifstream.closed, output_stream := ofstream.closed,
    input_header := none, output_header := none }

/-! The messages of the exceptions, under the names the specification gives the error kinds. -/

def FileNotFound : String := "Input file does not exist."
def IoOpenFailure : String := "Failed to open input file!"
def NotRiff : String := "Input file is not a RIFF file."
def NotWave : String := "Input file is not a RIFF/WAVE file."
def MissingFormatChunk : String := "Could not find format information in input file."
def UnsupportedCompression : String := "Only uncompressed RIFF/WAVE is supported."
def UnsupportedExtendedFormat : String := "RIFF/WAVE with extra format data is not supported."
def MissingDataChunk : String := "Could not find data chunk in input file."
def AlreadyExists : String := "Output file already exists! Refusing to overwrite it."
def OutputOpenFailure : String := "Failed to open output file!"
def UninitializedRead : String := "GetNextData(), although the input file is not initialised."

/-- The loop `while(strncmp(chunk.chunk_id, "data", 4) != 0)` of `SetInputFile`, run for at most
`fuel` evaluations of its condition. `chunk` is the memory of the local `data_chunk_t`. The
answer is the stream, the memory of `chunk` and the message thrown, if any; `none` means the
fuel ran out. -/
def findDataChunk : Nat → ifstream → List Nat → Option (ifstream × List Nat × Option String)
  | 0, _, _ => none
  | fuel + 1, s, chunk =>
    if strncmp (rdTag chunk 0) (cstr "data") 4 ≠ 0 then
      if s.eof then some (s, chunk, some MissingDataChunk)
      else
        let r := s.read sizeof_data_chunk_t
        findDataChunk fuel r.1 (overwrite chunk r.2)
    else some (s, chunk, none)

/-- Member `SetInputFile(input_file)`. `chunk` is the indeterminate initial memory of the local
variable `data_chunk_t chunk`, which the code declares without an initialiser. The scan loop is
given `input_file.bytes.length + 2` evaluations of its condition, which is always enough
(`SetInputFile_total`), so the answer is never `none`. -/
def SetInputFile (self : WavTransceiver) (input_file : path_t) (chunk : List Nat) :
    Option (WavTransceiver × Option String) :=
  if !input_file.found then some (self, some FileNotFound)
  else
    let self := { self with input_stream := ifstream.mk_open input_file }
    if !self.input_stream.is_open then some (self, some IoOpenFailure)
    else
      -- `std::make_unique<wav_header_t>()` value-initialises: 36 zero bytes
      let r := (self.input_stream.seekg_beg 0).read sizeof_wav_header_t
      let hdr := wav_header_t.ofBytes (overwrite (List.replicate sizeof_wav_header_t 0) r.2)
      let self := { self with input_stream := r.1, input_header := some hdr }
      if strncmp hdr.riff_chunk.chunk_id (cstr "RIFF") 4 ≠ 0 then some (self, some NotRiff)
      else if strncmp hdr.riff_chunk.riff_type (cstr "WAVE") 4 ≠ 0 then some (self, some NotWave)
      else if strncmp hdr.fmt_chunk.chunk_id (cstr "fmt") 3 ≠ 0 then
        some (self, some MissingFormatChunk)
      else if hdr.fmt_chunk.compression_type ≠ 1 then some (self, some UnsupportedCompression)
      else if hdr.fmt_chunk.chunk_size ≠ 16 then some (self, some UnsupportedExtendedFormat)
      else
        match findDataChunk (input_file.bytes.length + 2) self.input_stream chunk with
        | none => none
        | some (s, _, thrown) => some ({ self with input_stream := s }, thrown)

/-- Member `SetOutputFile(output_file, slice_rate, data_rate)`. -/
def SetOutputFile (self : WavTransceiver) (output_file : path_t) (slice_rate data_rate : Nat) :
    WavTransceiver × Option String :=
  if output_file.found then (self, some AlreadyExists)
  else
    let self := { self with output_stream := ofstream.mk_open output_file }
    if !self.output_stream.is_open then (self, some OutputOpenFailure)
    else
      let riff_chunk : riff_chunk_t :=
        { chunk_id := cstr "RIFF", chunk_size := 28, riff_type := cstr "WAVE" }
      let fmt_chunk : fmt_chunk_t :=
        { chunk_id := cstr "fmt ", chunk_size := 16, compression_type := 1, channels := 2,
          slice_rate := slice_rate % 2 ^ 32, data_rate := data_rate % 2 ^ 32,
          block_alignment := 4, sample_depth := 16 }
      let hdr : wav_header_t := { riff_chunk := riff_chunk, fmt_chunk := fmt_chunk }
      let self := { self with output_header := some hdr }
      let out := self.output_stream.write hdr.bytes
      let data_chunk : data_chunk_t := { chunk_id := cstr "data", chunk_size := 8 }
      let out := out.write data_chunk.bytes
      ({ self with output_stream := out }, none)

/-- Member `WriteData(data, size, flush)`, with `data` the `size` bytes the pointer designates.
The two subtractions are those of unsigned 32-bit arithmetic. -/
def WriteData (self : WavTransceiver) (data : List Nat) (flush : Bool) : WavTransceiver :=
  let out := self.output_stream.write data
  let end_ := out.tellp
  let out := out.seekp_beg 4
  let new_size := (end_ + 2 ^ 32 - 8) % 2 ^ 32
  let out := out.write (size_dword_t.bytes new_size)
  let out := out.seekp_beg (sizeof_wav_header_t + 4)
  let sample_size := (end_ + 2 ^ 32 - sizeof_wav_header_t) % 2 ^ 32
  let out := out.write (size_dword_t.bytes sample_size)
  let out := out.seekp_end
  let out := if flush then out.flush else out
  { self with output_stream := out }

/-- Member `GetInputSampleSize()`; `none` stands for the dereference of a null `input_header`. -/
def GetInputSampleSize (self : WavTransceiver) : Option Nat :=
  self.input_header.map fun h => h.fmt_chunk.sample_depth / 8

/-- What a call of `GetNextData` gives back. -/
inductive Slice where
  | thrown (what : String)
  | nullptr
  | buffer (v : List Nat)
  deriving DecidableEq

/-- Member `GetNextData(sample_count)` for a non-negative `sample_count` whose product with the
sample size fits an `int`. The vector is created with all elements zero. -/
def GetNextData (self : WavTransceiver) (sample_count : Nat) : WavTransceiver × Slice :=
  match self.input_header with
  | none => (self, Slice.thrown UninitializedRead)
  | some h =>
    let n := h.fmt_chunk.sample_depth / 8 * sample_count
    let v := List.replicate n 0
    if self.input_stream.eof then (self, Slice.nullptr)
    else
      let r := self.input_stream.read n
      ({ self with input_stream := r.1 }, Slice.buffer (overwrite v r.2))

/-- Member `CloseInputFile()`. -/
def CloseInputFile (self : WavTransceiver) : WavTransceiver :=
  if self.input_stream.is_open then { self with input_stream := self.input_stream.close }
  else self

/-- Member `CloseOutputFile()`. -/
def CloseOutputFile (self : WavTransceiver) : WavTransceiver :=
  if self.output_stream.is_open then
    { self with output_stream := self.output_stream.flush.close }
  else self

/-! ## Vocabulary of the claims and sample inputs -/

/-- Byte sequence of the output file. -/
def outputFile (self : WavTransceiver) : List Nat := self.output_stream.content

/-- A sequence of `WriteData(data, size, flush)` calls, one `(data, flush)` pair per call. -/
def writeAll (self : WavTransceiver) (calls : List (List Nat × Bool)) : WavTransceiver :=
  calls.foldl (fun w c => WriteData w c.1 c.2) self

/-- Total number of payload bytes of a sequence of calls. -/
def payloadTotal (calls : List (List Nat × Bool)) : Nat :=
  (calls.map fun c => c.1.length).sum

/-- An output stream as `SetOutputFile` and `WriteData` leave it: open, healthy, the cursor at
the end of a file that holds at least the 44 header bytes. -/
def WriterReady (s : ofstream) : Prop :=
  s.is_open = true ∧ s.failed = false ∧ s.pos = s.content.length ∧ 44 ≤ s.content.length

/-- A path at which no file exists and a file can be created. -/
def freshPath : path_t := { found := false, opens := true, bytes := [] }

/-- The input stream right after `SetInputFile` has read the 36 header bytes of a file holding
`bytes`: a file shorter than the header leaves `eofbit` and `failbit` set. -/
def afterHeader (bytes : List Nat) : ifstream :=
  if bytes.length < 36 then
    { is_open := true, content := bytes, pos := bytes.length, eofbit := true, failbit := true }
  else { is_open := true, content := bytes, pos := 36, eofbit := false, failbit := false }

/-- An existing, readable file holding `bytes`. -/
def fileOf (bytes : List Nat) : path_t := { found := true, opens := true, bytes := bytes }

/-- A 36-byte RIFF+fmt header with the given `fmt` tag, compression code, fmt chunk size and
sample depth, for two channels at 48000 slices per second. -/
def sampleHeader (fmtTag : List Nat) (compression fmtSize bits : Nat) : List Nat :=
  cstr "RIFF" ++ u32le 40 ++ cstr "WAVE" ++ fmtTag ++ u32le fmtSize ++ u16le compression
    ++ u16le 2 ++ u32le 48000 ++ u32le 176400 ++ u16le 4 ++ u16le bits

/-- A canonical 16-bit PCM file of 48 bytes whose payload is `[1, 2, 3, 4]`. -/
def sampleWav : List Nat :=
  sampleHeader (cstr "fmt ") 1 16 16 ++ cstr "data" ++ u32le 4 ++ [1, 2, 3, 4]

/-- The canonical sample file with the format tag replaced by `fmtX`. -/
def fmtXWav : List Nat :=
  sampleHeader (cstr "fmtX") 1 16 16 ++ cstr "data" ++ u32le 4 ++ [1, 2, 3, 4]

/-- The canonical sample file with the format tag replaced by `fmt` and a zero byte. -/
def fmtNulWav : List Nat :=
  sampleHeader [102, 109, 116, 0] 1 16 16 ++ cstr "data" ++ u32le 4 ++ [1, 2, 3, 4]

/-- A valid 36-byte header followed by the 9 bytes `Xata1234d`. -/
def staleProbeWav : List Nat := sampleHeader (cstr "fmt ") 1 16 16 ++ cstr "Xata1234d"

/-- Eight zero bytes, as one possible initial content of the probe `chunk`. -/
def zeroChunk : List Nat := List.replicate 8 0

/-- Eight bytes that read `data` and the size 4, as another possible initial content of the
probe `chunk`: what a scan that stopped at a data-chunk header of size 4 stores in it. -/
def dataProbe : List Nat := cstr "data" ++ u32le 4

/-- The results of `n` successive calls `GetNextData(sample_count)`. -/
def readSlices : Nat → WavTransceiver → Nat → List Slice
  | 0, _, _ => []
  | n + 1, self, sample_count =>
    (GetNextData self sample_count).2 :: readSlices n (GetNextData self sample_count).1 sample_count

/-- The output side after `SetOutputFile(output_file, slice_rate, data_rate)` on the component
`self` followed by the `WriteData` calls `calls`. -/
def afterWrites (self : WavTransceiver) (output_file : path_t) (slice_rate data_rate : Nat)
    (calls : List (List Nat × Bool)) : WavTransceiver :=
  writeAll (SetOutputFile self output_file slice_rate data_rate).1 calls

/-- The payloads of a sequence of `WriteData` calls, one after the other. -/
def payloadOf (calls : List (List Nat × Bool)) : List Nat :=
  (calls.map Prod.fst).flatten

/-- The component after successive calls `GetNextData(c)`, one for each `c` of `counts`. -/
def afterReads (self : WavTransceiver) (counts : List Nat) : WavTransceiver :=
  counts.foldl (fun w c => (GetNextData w c).1) self

/-- The destructor `~WavTransceiver()`. -/
def WavTransceiver.destroy (self : WavTransceiver) : WavTransceiver :=
  CloseOutputFile (CloseInputFile self)

/-- The loop of `main` in `test.cpp`,
`while((v = wt.GetNextData(1)) != nullptr) wt.WriteData(v->data(), v->size(), false);`
run for at most `fuel` evaluations of its condition. The answer is the component when the loop
is left, the number of `WriteData` calls made and the message of an exception that left the
loop, if any; `none` means the fuel ran out. -/
def copyLoop : Nat → WavTransceiver → Option (WavTransceiver × Nat × Option String)
  | 0, _ => none
  | fuel + 1, wt =>
    match (GetNextData wt 1).2 with
    | Slice.buffer v =>
      (copyLoop fuel (WriteData (GetNextData wt 1).1 v false)).map
        fun r => (r.1, r.2.1 + 1, r.2.2)
    | Slice.nullptr => some ((GetNextData wt 1).1, 0, none)
    | Slice.thrown what => some ((GetNextData wt 1).1, 0, some what)

/-- The scan loop of `SetInputFile` once more, `findDataChunk` with a record of its reads: the
second component lists, in order, the cursor offset at which each `read` was issued. -/
def findDataChunkTrace :
    Nat → ifstream → List Nat → Option ((ifstream × List Nat × Option String) × List Nat)
  | 0, _, _ => none
  | fuel + 1, s, chunk =>
    if strncmp (rdTag chunk 0) (cstr "data") 4 ≠ 0 then
      if s.eof then some ((s, chunk, some MissingDataChunk), [])
      else
        let r := s.read sizeof_data_chunk_t
        (findDataChunkTrace fuel r.1 (overwrite chunk r.2)).map fun t => (t.1, s.pos :: t.2)
    else some ((s, chunk, none), [])

/-- A valid 36-byte header, a `LIST` chunk with the 4-byte payload `INFO`, then a `data` chunk
with the payload `[1, 2, 3, 4]`: the data-chunk header is at offset 48. -/
def listChunkWav : List Nat :=
  sampleHeader (cstr "fmt ") 1 16 16 ++ cstr "LIST" ++ u32le 4 ++ cstr "INFO"
    ++ cstr "data" ++ u32le 4 ++ [1, 2, 3, 4]

/-- An input stream that can still be read: no state bit is set, the cursor is inside the file
or at its end, and the file is open. -/
def ReaderGood (s : ifstream) : Prop :=
  s.eofbit = false ∧ s.failbit = false ∧ s.pos ≤ s.content.length ∧ s.is_open = true

/-- The component after `SetInputFile` accepted the canonical sample file: the header is parsed
and the cursor is at offset 44. -/
def sampleReader : WavTransceiver :=
  { input_stream :=
      { is_open := true, content := sampleWav, pos := 44, eofbit := false, failbit := false }
    output_stream := ofstream.closed
    input_header := some (wav_header_t.ofBytes sampleWav)
    output_header := none }

/-- The canonical sample file with a sample depth of 4 bits. -/
def fourBitWav : List Nat :=
  sampleHeader (cstr "fmt ") 1 16 4 ++ cstr "data" ++ u32le 4 ++ [1, 2, 3, 4]

/-- The component after `SetInputFile` accepted `fourBitWav`. -/
def fourBitReader : WavTransceiver :=
  { input_stream :=
      { is_open := true, content := fourBitWav, pos := 44, eofbit := false, failbit := false }
    output_stream := ofstream.closed
    input_header := some (wav_header_t.ofBytes fourBitWav)
    output_header := none }

/-! ## Lists read position by position -/

theorem getD_take0 (l : List Nat) (n i : Nat) :
    (l.take n).getD i 0 = if i < n then l.getD i 0 else 0 := by
  simp only [List.getD_eq_getElem?_getD, List.getElem?_take]
  split <;> simp

theorem getD_drop0 (l : List Nat) (n i : Nat) : (l.drop n).getD i 0 = l.getD (n + i) 0 := by
  simp only [List.getD_eq_getElem?_getD, List.getElem?_drop]

theorem getD_append0 (a b : List Nat) (i : Nat) :
    (a ++ b).getD i 0 = if i < a.length then a.getD i 0 else b.getD (i - a.length) 0 := by
  simp only [List.getD_eq_getElem?_getD]
  split
  · rw [List.getElem?_append_left (by assumption)]
  · rw [List.getElem?_append_right (by omega)]

theorem getD_replicate0 (n i : Nat) : (List.replicate n 0).getD i 0 = 0 := by
  simp only [List.getD_eq_getElem?_getD, List.getElem?_replicate]
  split <;> simp

theorem getD_beyond0 (l : List Nat) (i : Nat) (h : l.length ≤ i) : l.getD i 0 = 0 := by
  simp [List.getD_eq_getElem?_getD, List.getElem?_eq_none h]

theorem length_writeAt (c : List Nat) (p : Nat) (d : List Nat) :
    (writeAt c p d).length = max c.length (p + d.length) := by
  simp only [writeAt, List.length_append, List.length_take, List.length_replicate,
    List.length_drop]
  omega

theorem getD_writeAt (c : List Nat) (p : Nat) (d : List Nat) (i : Nat) :
    (writeAt c p d).getD i 0
      = if i < p then c.getD i 0 else if i < p + d.length then d.getD (i - p) 0 else c.getD i 0 := by
  have hp : min p c.length + (p - c.length) = p := by omega
  simp only [writeAt, getD_append0, getD_take0, getD_drop0, getD_replicate0, List.length_append,
    List.length_take, List.length_replicate, hp]
  by_cases h1 : i < p
  · have a1 : i < p + d.length := by omega
    by_cases h2 : i < c.length
    · have a2 : i < min p c.length := by omega
      simp only [h1, a1, a2, if_true]
    · have a2 : ¬ i < min p c.length := by omega
      simp only [h1, a1, a2, if_true, if_false, getD_beyond0 c i (by omega)]
  · by_cases h2 : i < p + d.length
    · simp only [h1, h2, if_true, if_false]
    · have e : p + d.length + (i - (p + d.length)) = i := by omega
      simp only [h1, h2, if_false, e]

/-! ## The writer -/

theorem writeAt_end (c d : List Nat) : writeAt c c.length d = c ++ d := by
  simp [writeAt]

theorem WriteData_stream (self : WavTransceiver) (data : List Nat) (flush : Bool)
    (h : WriterReady self.output_stream) :
    (WriteData self data flush).output_stream =
      { is_open := true
        content :=
          writeAt
            (writeAt (self.output_stream.content ++ data) 4
              (u32le (((self.output_stream.content.length + data.length) % 2 ^ 32 + 2 ^ 32 - 8)
                % 2 ^ 32)))
            40
            (u32le (((self.output_stream.content.length + data.length) % 2 ^ 32 + 2 ^ 32 - 36)
              % 2 ^ 32))
        pos := self.output_stream.content.length + data.length
        failed := false } := by
  obtain ⟨h1, h2, h3, h4⟩ := h
  have hl : ∀ n, (u32le n).length = 4 := fun n => rfl
  cases flush <;>
    simp [WriteData, ofstream.write, ofstream.tellp, ofstream.seekp_beg, ofstream.seekp_end,
      ofstream.flush, size_dword_t.bytes, sizeof_wav_header_t, h1, h2, h3, writeAt_end,
      length_writeAt, hl] <;> omega

theorem u32le_getD (n : Nat) :
    (u32le n).getD 0 0 = n % 256 ∧ (u32le n).getD 1 0 = n / 256 % 256
      ∧ (u32le n).getD 2 0 = n / 65536 % 256 ∧ (u32le n).getD 3 0 = n / 16777216 % 256 := by
  simp [u32le]

theorem WriteData_ready (self : WavTransceiver) (data : List Nat) (flush : Bool)
    (h : WriterReady self.output_stream) : WriterReady (WriteData self data flush).output_stream := by
  have hl : ∀ n, (u32le n).length = 4 := fun n => rfl
  rw [WriteData_stream self data flush h]
  obtain ⟨_, _, _, h4⟩ := h
  refine ⟨rfl, rfl, ?_, ?_⟩
  · simp only [length_writeAt, hl, List.length_append]; omega
  · simp only [length_writeAt, hl, List.length_append]; omega

theorem WriteData_length (self : WavTransceiver) (data : List Nat) (flush : Bool)
    (h : WriterReady self.output_stream) :
    (outputFile (WriteData self data flush)).length = (outputFile self).length + data.length := by
  have hl : ∀ n, (u32le n).length = 4 := fun n => rfl
  rw [outputFile, WriteData_stream self data flush h]
  obtain ⟨_, _, _, h4⟩ := h
  simp [outputFile, length_writeAt, hl]; omega

theorem rd32_writeAt_here (c : List Nat) (p n : Nat) :
    rd32 (writeAt c p (u32le n)) p = n % 2 ^ 32 := by
  have hl : (u32le n).length = 4 := rfl
  obtain ⟨g0, g1, g2, g3⟩ := u32le_getD n
  have e0 : p - p = 0 := by omega
  have e1 : p + 1 - p = 1 := by omega
  have e2 : p + 2 - p = 2 := by omega
  have e3 : p + 3 - p = 3 := by omega
  have a0 : ¬ p < p := by omega
  have a1 : ¬ p + 1 < p := by omega
  have a2 : ¬ p + 2 < p := by omega
  have a3 : ¬ p + 3 < p := by omega
  have b0 : p < p + 4 := by omega
  have b1 : p + 1 < p + 4 := by omega
  have b2 : p + 2 < p + 4 := by omega
  have b3 : p + 3 < p + 4 := by omega
  simp only [rd32, getD_writeAt, hl, a0, a1, a2, a3, b0, b1, b2, b3, if_true, if_false,
    e0, e1, e2, e3, g0, g1, g2, g3]
  omega

theorem rd32_writeAt_other (c : List Nat) (p : Nat) (d : List Nat) (o : Nat)
    (h : o + 4 ≤ p ∨ p + d.length ≤ o) : rd32 (writeAt c p d) o = rd32 c o := by
  simp only [rd32, getD_writeAt]
  rcases h with h | h
  · have b0 : o < p := by omega
    have b1 : o + 1 < p := by omega
    have b2 : o + 2 < p := by omega
    have b3 : o + 3 < p := by omega
    simp only [b0, b1, b2, b3, if_true]
  · have a0 : ¬ o < p := by omega
    have a1 : ¬ o + 1 < p := by omega
    have a2 : ¬ o + 2 < p := by omega
    have a3 : ¬ o + 3 < p := by omega
    have b0 : ¬ o < p + d.length := by omega
    have b1 : ¬ o + 1 < p + d.length := by omega
    have b2 : ¬ o + 2 < p + d.length := by omega
    have b3 : ¬ o + 3 < p + d.length := by omega
    simp only [a0, a1, a2, a3, b0, b1, b2, b3, if_false]

theorem WriteData_riff_size (self : WavTransceiver) (data : List Nat) (flush : Bool)
    (h : WriterReady self.output_stream) :
    rd32 (outputFile (WriteData self data flush)) 4
      = (((outputFile self).length + data.length) % 2 ^ 32 + 2 ^ 32 - 8) % 2 ^ 32 := by
  rw [outputFile, WriteData_stream self data flush h]
  show rd32 (writeAt (writeAt _ 4 (u32le _)) 40 (u32le _)) 4 = _
  rw [rd32_writeAt_other _ _ _ _ (Or.inl (by decide)), rd32_writeAt_here]
  simp only [outputFile]
  omega

theorem WriteData_data_size (self : WavTransceiver) (data : List Nat) (flush : Bool)
    (h : WriterReady self.output_stream) :
    rd32 (outputFile (WriteData self data flush)) 40
      = (((outputFile self).length + data.length) % 2 ^ 32 + 2 ^ 32 - 36) % 2 ^ 32 := by
  rw [outputFile, WriteData_stream self data flush h]
  show rd32 (writeAt (writeAt _ 4 (u32le _)) 40 (u32le _)) 40 = _
  rw [rd32_writeAt_here]
  simp only [outputFile]
  omega

theorem writeAll_ready (calls : List (List Nat × Bool)) :
    ∀ self : WavTransceiver, WriterReady self.output_stream →
      WriterReady (writeAll self calls).output_stream
        ∧ (outputFile (writeAll self calls)).length = (outputFile self).length + payloadTotal calls := by
  induction calls with
  | nil => intro self h; exact ⟨h, by simp [writeAll, payloadTotal]⟩
  | cons c cs ih =>
    intro self h
    have h1 := WriteData_ready self c.1 c.2 h
    have h2 := WriteData_length self c.1 c.2 h
    obtain ⟨i1, i2⟩ := ih (WriteData self c.1 c.2) h1
    refine ⟨i1, ?_⟩
    have e : writeAll self (c :: cs) = writeAll (WriteData self c.1 c.2) cs := rfl
    rw [e, i2, h2]
    simp [payloadTotal]; omega

theorem writeAll_concat (self : WavTransceiver) (calls : List (List Nat × Bool))
    (c : List Nat × Bool) :
    writeAll self (calls ++ [c]) = WriteData (writeAll self calls) c.1 c.2 := by
  simp [writeAll, List.foldl_append]

theorem SetOutputFile_stream (self : WavTransceiver) (p : path_t) (r d : Nat)
    (hfound : p.found = false) (hopens : p.opens = true) :
    (SetOutputFile self p r d).2 = none ∧
    (SetOutputFile self p r d).1.output_stream =
      { is_open := true
        content :=
          [82, 73, 70, 70, 28, 0, 0, 0, 87, 65, 86, 69, 102, 109, 116, 32, 16, 0, 0, 0, 1, 0, 2, 0,
            r % 256, r / 256 % 256, r / 65536 % 256, r / 16777216 % 256,
            d % 256, d / 256 % 256, d / 65536 % 256, d / 16777216 % 256,
            4, 0, 16, 0, 100, 97, 116, 97, 8, 0, 0, 0]
        pos := 44
        failed := false } := by
  simp [SetOutputFile, hfound, hopens, ofstream.mk_open, ofstream.write, writeAt,
    wav_header_t.bytes, riff_chunk_t.bytes, fmt_chunk_t.bytes, data_chunk_t.bytes, tagBytes,
    rdTag, u32le, u16le, cstr]
  omega

theorem SetOutputFile_ready (self : WavTransceiver) (p : path_t) (r d : Nat)
    (hfound : p.found = false) (hopens : p.opens = true) :
    WriterReady (SetOutputFile self p r d).1.output_stream
      ∧ (outputFile (SetOutputFile self p r d).1).length = 44 := by
  rw [outputFile, (SetOutputFile_stream self p r d hfound hopens).2]
  exact ⟨⟨rfl, rfl, rfl, by simp⟩, rfl⟩

theorem writeAll_fields (self : WavTransceiver) (calls : List (List Nat × Bool))
    (h : WriterReady self.output_stream) (hne : calls ≠ []) :
    rd32 (outputFile (writeAll self calls)) 4
        = (((outputFile self).length + payloadTotal calls) % 2 ^ 32 + 2 ^ 32 - 8) % 2 ^ 32
      ∧ rd32 (outputFile (writeAll self calls)) 40
        = (((outputFile self).length + payloadTotal calls) % 2 ^ 32 + 2 ^ 32 - 36) % 2 ^ 32 := by
  rcases List.eq_nil_or_concat calls with h0 | ⟨cs, c, rfl⟩
  · exact absurd h0 hne
  · rw [List.concat_eq_append] at hne ⊢
    obtain ⟨r1, r2⟩ := writeAll_ready cs self h
    have e : payloadTotal (cs ++ [c]) = payloadTotal cs + c.1.length := by
      simp [payloadTotal]
    rw [writeAll_concat, WriteData_riff_size _ _ _ r1, WriteData_data_size _ _ _ r1, r2, e]
    simp only [Nat.add_assoc, and_self]

/-! ## The reader -/

theorem getD_overwrite (buf data : List Nat) (i : Nat) :
    (overwrite buf data).getD i 0 = if i < data.length then data.getD i 0 else buf.getD i 0 := by
  simp only [overwrite, getD_append0, getD_drop0]
  split
  · rfl
  · rw [show data.length + (i - data.length) = i from by omega]

theorem strncmp_tag4 (a b c d t0 t1 t2 t3 : Nat) (h0 : t0 ≠ 0) (h1 : t1 ≠ 0) (h2 : t2 ≠ 0) :
    strncmp [a, b, c, d] [t0, t1, t2, t3] 4 = 0 ↔ [a, b, c, d] = [t0, t1, t2, t3] := by
  simp only [strncmp, List.headD_cons, List.tail_cons, ne_eq, ite_not]
  by_cases e0 : a = t0
  · by_cases e1 : b = t1
    · by_cases e2 : c = t2
      · by_cases e3 : d = t3
        · simp [e0, e1, e2, e3, h0, h1, h2]
        · have : (d : Int) - t3 ≠ 0 := by omega
          simp [e0, e1, e2, e3, h0, h1, h2, this]
      · have : (c : Int) - t2 ≠ 0 := by omega
        simp [e0, e1, e2, h0, h1, this]
    · have : (b : Int) - t1 ≠ 0 := by omega
      simp [e0, e1, h0, this]
  · have : (a : Int) - t0 ≠ 0 := by omega
    simp [e0, this]

theorem strncmp_tag3 (a b c d t0 t1 t2 : Nat) (h0 : t0 ≠ 0) (h1 : t1 ≠ 0) :
    strncmp [a, b, c, d] [t0, t1, t2] 3 = 0 ↔ [a, b, c] = [t0, t1, t2] := by
  simp only [strncmp, List.headD_cons, List.tail_cons, ne_eq, ite_not]
  by_cases e0 : a = t0
  · by_cases e1 : b = t1
    · by_cases e2 : c = t2
      · simp [e0, e1, e2, h0, h1]
      · have : (c : Int) - t2 ≠ 0 := by omega
        simp [e0, e1, e2, h0, h1, this]
    · have : (b : Int) - t1 ≠ 0 := by omega
      simp [e0, e1, h0, this]
  · have : (a : Int) - t0 ≠ 0 := by omega
    simp [e0, this]

theorem strncmp_RIFF (m : List Nat) (o : Nat) :
    strncmp (rdTag m o) (cstr "RIFF") 4 = 0 ↔ rdTag m o = cstr "RIFF" :=
  strncmp_tag4 _ _ _ _ 82 73 70 70 (by decide) (by decide) (by decide)

theorem strncmp_WAVE (m : List Nat) (o : Nat) :
    strncmp (rdTag m o) (cstr "WAVE") 4 = 0 ↔ rdTag m o = cstr "WAVE" :=
  strncmp_tag4 _ _ _ _ 87 65 86 69 (by decide) (by decide) (by decide)

theorem strncmp_data (m : List Nat) (o : Nat) :
    strncmp (rdTag m o) (cstr "data") 4 = 0 ↔ rdTag m o = cstr "data" :=
  strncmp_tag4 _ _ _ _ 100 97 116 97 (by decide) (by decide) (by decide)

theorem strncmp_fmt (m : List Nat) (o : Nat) :
    strncmp (rdTag m o) (cstr "fmt") 3 = 0 ↔ (rdTag m o).take 3 = cstr "fmt" :=
  strncmp_tag3 _ _ _ _ 102 109 116 (by decide) (by decide)

theorem header_read (p : path_t) (ho : p.opens = true) :
    ((ifstream.mk_open p).seekg_beg 0).read sizeof_wav_header_t
      = (afterHeader p.bytes, p.bytes.take 36) := by
  by_cases h : p.bytes.length < 36
  · have h' : min 36 p.bytes.length < 36 := by omega
    have e : min 36 p.bytes.length = p.bytes.length := by omega
    simp [ifstream.mk_open, ho, ifstream.seekg_beg, ifstream.read, sizeof_wav_header_t,
      afterHeader, h, h', e]
  · have h' : ¬ min 36 p.bytes.length < 36 := by omega
    simp [ifstream.mk_open, ho, ifstream.seekg_beg, ifstream.read, sizeof_wav_header_t,
      afterHeader, h, h']

theorem getD_header_memory (bytes : List Nat) (i : Nat) (hi : i < 36) :
    (overwrite (List.replicate sizeof_wav_header_t 0) (bytes.take 36)).getD i 0
      = bytes.getD i 0 := by
  rw [getD_overwrite, getD_take0, getD_replicate0, if_pos hi]
  split
  · rfl
  · rw [getD_beyond0]
    simp only [List.length_take] at *
    omega

theorem header_memory (bytes : List Nat) :
    wav_header_t.ofBytes (overwrite (List.replicate sizeof_wav_header_t 0) (bytes.take 36))
      = wav_header_t.ofBytes bytes := by
  simp only [wav_header_t.ofBytes, rdTag, rd32, rd16]
  repeat rw [getD_header_memory bytes _ (by decide)]

theorem SetInputFile_opened (self : WavTransceiver) (p : path_t) (chunk : List Nat)
    (hf : p.found = true) (ho : p.opens = true) :
    SetInputFile self p chunk =
      if rdTag p.bytes 0 ≠ cstr "RIFF" then
        some ({ self with input_stream := afterHeader p.bytes,
                          input_header := some (wav_header_t.ofBytes p.bytes) }, some NotRiff)
      else if rdTag p.bytes 8 ≠ cstr "WAVE" then
        some ({ self with input_stream := afterHeader p.bytes,
                          input_header := some (wav_header_t.ofBytes p.bytes) }, some NotWave)
      else if (rdTag p.bytes 12).take 3 ≠ cstr "fmt" then
        some ({ self with input_stream := afterHeader p.bytes,
                          input_header := some (wav_header_t.ofBytes p.bytes) },
              some MissingFormatChunk)
      else if rd16 p.bytes 20 ≠ 1 then
        some ({ self with input_stream := afterHeader p.bytes,
                          input_header := some (wav_header_t.ofBytes p.bytes) },
              some UnsupportedCompression)
      else if rd32 p.bytes 16 ≠ 16 then
        some ({ self with input_stream := afterHeader p.bytes,
                          input_header := some (wav_header_t.ofBytes p.bytes) },
              some UnsupportedExtendedFormat)
      else
        (findDataChunk (p.bytes.length + 2) (afterHeader p.bytes) chunk).map fun r =>
          ({ self with input_stream := r.1,
                       input_header := some (wav_header_t.ofBytes p.bytes) }, r.2.2) := by
  have hopen : (ifstream.mk_open p).is_open = true := by simp [ifstream.mk_open, ho]
  simp only [SetInputFile, hf, hopen, header_read p ho, header_memory, Bool.not_true,
    Bool.false_eq_true, if_false, ne_eq]
  simp only [wav_header_t.ofBytes, strncmp_RIFF, strncmp_WAVE, strncmp_fmt]
  split_ifs <;> first | rfl | (cases findDataChunk (p.bytes.length + 2) (afterHeader p.bytes) chunk <;> rfl)

theorem rdTag_drop (m : List Nat) (o : Nat) : rdTag (m.drop o) 0 = rdTag m o := by
  simp only [rdTag, getD_drop0, Nat.add_zero, Nat.zero_add]

theorem take4_eq_iff (m : List Nat) (a b c d : Nat) (hd : d ≠ 0) :
    m.take 4 = [a, b, c, d] ↔ rdTag m 0 = [a, b, c, d] := by
  rcases m with _ | ⟨x0, _ | ⟨x1, _ | ⟨x2, _ | ⟨x3, r⟩⟩⟩⟩ <;> simp [rdTag] <;> omega

theorem take3_eq_iff (m : List Nat) (a b c : Nat) (hc : c ≠ 0) :
    m.take 3 = [a, b, c] ↔ (rdTag m 0).take 3 = [a, b, c] := by
  rcases m with _ | ⟨x0, _ | ⟨x1, _ | ⟨x2, r⟩⟩⟩ <;> simp [rdTag] <;> omega

theorem tag_RIFF (m : List Nat) : m.take 4 = cstr "RIFF" ↔ rdTag m 0 = cstr "RIFF" :=
  take4_eq_iff m 82 73 70 70 (by decide)

theorem tag_WAVE (m : List Nat) : (m.drop 8).take 4 = cstr "WAVE" ↔ rdTag m 8 = cstr "WAVE" := by
  rw [← rdTag_drop]; exact take4_eq_iff _ 87 65 86 69 (by decide)

theorem tag_fmt4 (m : List Nat) : (m.drop 12).take 4 = cstr "fmt " ↔ rdTag m 12 = cstr "fmt " := by
  rw [← rdTag_drop]; exact take4_eq_iff _ 102 109 116 32 (by decide)

theorem tag_fmt3 (m : List Nat) :
    (m.drop 12).take 3 = cstr "fmt" ↔ (rdTag m 12).take 3 = cstr "fmt" := by
  rw [← rdTag_drop]; exact take3_eq_iff _ 102 109 116 (by decide)

theorem tag_data (m : List Nat) (o : Nat) :
    (m.drop o).take 4 = cstr "data" ↔ rdTag m o = cstr "data" := by
  rw [← rdTag_drop]; exact take4_eq_iff _ 100 97 116 97 (by decide)

theorem fmt4_fmt3 (m : List Nat) (h : rdTag m 12 = cstr "fmt ") :
    (rdTag m 12).take 3 = cstr "fmt" := by
  rw [h]; decide

theorem findDataChunk_found (fuel : Nat) (s : ifstream) (chunk : List Nat)
    (h : rdTag chunk 0 = cstr "data") :
    findDataChunk (fuel + 1) s chunk = some (s, chunk, none) := by
  have e : strncmp (rdTag chunk 0) (cstr "data") 4 = 0 := (strncmp_data chunk 0).2 h
  simp [findDataChunk, e]

theorem findDataChunk_eof (fuel : Nat) (s : ifstream) (chunk : List Nat)
    (h : rdTag chunk 0 ≠ cstr "data") (he : s.eofbit = true) :
    findDataChunk (fuel + 1) s chunk = some (s, chunk, some MissingDataChunk) := by
  have e : strncmp (rdTag chunk 0) (cstr "data") 4 ≠ 0 := fun c => h ((strncmp_data chunk 0).1 c)
  simp [findDataChunk, e, ifstream.eof, he]

theorem findDataChunk_step (fuel : Nat) (s : ifstream) (chunk : List Nat)
    (h : rdTag chunk 0 ≠ cstr "data") (he : s.eofbit = false) :
    findDataChunk (fuel + 1) s chunk
      = findDataChunk fuel (s.read sizeof_data_chunk_t).1
          (overwrite chunk (s.read sizeof_data_chunk_t).2) := by
  have e : strncmp (rdTag chunk 0) (cstr "data") 4 ≠ 0 := fun c => h ((strncmp_data chunk 0).1 c)
  simp [findDataChunk, e, ifstream.eof, he]

/-- The scan loop returns: with the stream at end of file one evaluation of the condition is
enough, and otherwise two more than the number of bytes left. -/
theorem findDataChunk_total (fuel : Nat) :
    ∀ (s : ifstream) (chunk : List Nat),
      (s.eofbit = true ∧ 1 ≤ fuel)
        ∨ (s.eofbit = false ∧ s.failbit = false ∧ s.content.length - s.pos + 2 ≤ fuel) →
      (findDataChunk fuel s chunk).isSome = true := by
  induction fuel with
  | zero => intro s chunk h; omega
  | succ n ih =>
    intro s chunk h
    by_cases ht : rdTag chunk 0 = cstr "data"
    · rw [findDataChunk_found n s chunk ht]; rfl
    · by_cases he : s.eofbit = true
      · rw [findDataChunk_eof n s chunk ht he]; rfl
      · have he' : s.eofbit = false := by simpa using he
        rw [findDataChunk_step n s chunk ht he']
        rcases h with ⟨h1, _⟩ | ⟨_, hfl, hfu⟩
        · exact absurd h1 he
        · apply ih
          by_cases hop : s.is_open = true
          · by_cases hs : ((s.content.drop s.pos).take sizeof_data_chunk_t).length
                < sizeof_data_chunk_t
            · left
              simp only [ifstream.read, he', hfl, Bool.or_self, Bool.false_eq_true, if_false,
                hop, hs, if_true]
              exact ⟨trivial, by omega⟩
            · right
              simp only [ifstream.read, he', hfl, Bool.or_self, Bool.false_eq_true, if_false,
                hop, if_true, hs]
              simp only [sizeof_data_chunk_t, List.length_take, List.length_drop] at hs ⊢
              refine ⟨trivial, trivial, by omega⟩
          · left
            simp only [ifstream.read, he', hfl, Bool.or_self, Bool.false_eq_true, if_false,
              hop, List.length_nil, sizeof_data_chunk_t, Nat.zero_lt_succ, if_true]
            exact ⟨trivial, by omega⟩

theorem afterHeader_cases (bytes : List Nat) :
    ((afterHeader bytes).eofbit = true)
      ∨ ((afterHeader bytes).eofbit = false ∧ (afterHeader bytes).failbit = false
          ∧ (afterHeader bytes).content.length - (afterHeader bytes).pos + 2 ≤ bytes.length + 2) := by
  unfold afterHeader
  split
  · left; rfl
  · right; exact ⟨rfl, rfl, by simp⟩

/-- `SetInputFile` returns for every component, path and initial probe memory: the fuel it gives
the scan loop is always enough. -/
theorem SetInputFile_total (self : WavTransceiver) (p : path_t) (chunk : List Nat) :
    (SetInputFile self p chunk).isSome = true := by
  by_cases hf : p.found = true
  · by_cases ho : p.opens = true
    · rw [SetInputFile_opened self p chunk hf ho]
      have ht : (findDataChunk (p.bytes.length + 2) (afterHeader p.bytes) chunk).isSome = true := by
        apply findDataChunk_total
        rcases afterHeader_cases p.bytes with h | h
        · exact Or.inl ⟨h, by omega⟩
        · exact Or.inr h
      split_ifs <;> simp [ht]
    · simp [SetInputFile, hf, ho, ifstream.mk_open]
  · simp [SetInputFile, hf]

theorem read_full (s : ifstream) (n : Nat) (he : s.eofbit = false) (hfl : s.failbit = false)
    (hop : s.is_open = true) (h : s.pos + n ≤ s.content.length) :
    s.read n = ({ s with pos := s.pos + n }, (s.content.drop s.pos).take n) := by
  have hl : ¬ min n (s.content.length - s.pos) < n := by omega
  simp [ifstream.read, he, hfl, hop, hl]

theorem read_short (s : ifstream) (n : Nat) (he : s.eofbit = false) (hfl : s.failbit = false)
    (hop : s.is_open = true) (hp : s.pos ≤ s.content.length)
    (h : s.content.length < s.pos + n) :
    s.read n
      = ({ s with pos := s.pos + (s.content.length - s.pos), eofbit := true, failbit := true },
          s.content.drop s.pos) := by
  have hl : s.content.length - s.pos < n := by omega
  have e : min n (s.content.length - s.pos) = s.content.length - s.pos := by omega
  have e2 : (s.content.drop s.pos).take n = s.content.drop s.pos :=
    List.take_of_length_le (by simp only [List.length_drop]; omega)
  simp only [ifstream.read, he, hfl, hop, Bool.or_self, Bool.false_eq_true, if_false,
    List.length_take, List.length_drop, hl, if_true, e, e2]

/-- A read of at least one character from a stream with no open file stores nothing and sets
`eofbit` and `failbit`. -/
theorem read_closed (s : ifstream) (n : Nat) (he : s.eofbit = false) (hfl : s.failbit = false)
    (hop : s.is_open = false) (hn : 0 < n) :
    s.read n = ({ s with pos := s.pos + 0, eofbit := true, failbit := true }, []) := by
  simp [ifstream.read, he, hfl, hop, hn]

/-- After `CloseInputFile` the bytes of the file are out of reach: the next `GetNextData(1)`
returns a zero-filled buffer and sets end of file, the one after it returns `nullptr`. -/
theorem GetNextData_after_close :
    readSlices 2 (CloseInputFile sampleReader) 1 = [Slice.buffer [0, 0], Slice.nullptr] := by
  decide

theorem rdTag_overwrite_full (chunk bytes : List Nat) (o : Nat) (h : o + 8 ≤ bytes.length) :
    rdTag (overwrite chunk ((bytes.drop o).take 8)) 0 = rdTag bytes o := by
  have hl : ((bytes.drop o).take 8).length = 8 := by
    simp only [List.length_take, List.length_drop]; omega
  simp only [rdTag, getD_overwrite, hl, getD_take0, getD_drop0, Nat.add_zero, Nat.zero_add,
    show (0 : Nat) < 8 from by decide, show (1 : Nat) < 8 from by decide,
    show (2 : Nat) < 8 from by decide, show (3 : Nat) < 8 from by decide, if_true]

/-- A file that starts with valid RIFF and WAVE tags, the three characters `fmt`, fmt chunk size
16 and compression code 1, and holds `data` at offset 36 followed by at least 4 more bytes, is
accepted with the cursor left at offset 44. -/
theorem SetInputFile_canonical (self : WavTransceiver) (p : path_t) (chunk : List Nat)
    (hf : p.found = true) (ho : p.opens = true) (hlen : 44 ≤ p.bytes.length)
    (hriff : rdTag p.bytes 0 = cstr "RIFF") (hwave : rdTag p.bytes 8 = cstr "WAVE")
    (hfmt : (rdTag p.bytes 12).take 3 = cstr "fmt") (hsize : rd32 p.bytes 16 = 16)
    (hcomp : rd16 p.bytes 20 = 1) (hdata : rdTag p.bytes 36 = cstr "data")
    (hprobe : rdTag chunk 0 ≠ cstr "data") :
    SetInputFile self p chunk =
      some ({ self with
                input_stream :=
                  { is_open := true, content := p.bytes, pos := 44, eofbit := false,
                    failbit := false }
                input_header := some (wav_header_t.ofBytes p.bytes) }, none) := by
  have hah : afterHeader p.bytes =
      { is_open := true, content := p.bytes, pos := 36, eofbit := false, failbit := false } := by
    have : ¬ p.bytes.length < 36 := by omega
    simp [afterHeader, this]
  rw [SetInputFile_opened self p chunk hf ho]
  simp only [hriff, hwave, hfmt, hsize, hcomp, ne_eq, not_true_eq_false, if_false]
  rw [findDataChunk_step _ _ _ hprobe (by rw [hah]), hah,
    read_full _ sizeof_data_chunk_t rfl rfl rfl (by simp only [sizeof_data_chunk_t]; omega)]
  rw [findDataChunk_found]
  · rfl
  · show rdTag (overwrite chunk ((p.bytes.drop 36).take 8)) 0 = _
    rw [rdTag_overwrite_full _ _ _ (by omega), hdata]

theorem SetInputFile_no_data (p : path_t) (chunk : List Nat)
    (hlen : p.bytes.length ≤ 36) (hprobe : rdTag chunk 0 ≠ cstr "data") :
    (findDataChunk (p.bytes.length + 2) (afterHeader p.bytes) chunk).map (fun r => r.2.2)
      = some (some MissingDataChunk) := by
  by_cases h : p.bytes.length < 36
  · have hah : (afterHeader p.bytes).eofbit = true := by simp [afterHeader, h]
    rw [findDataChunk_eof _ _ _ hprobe hah]; rfl
  · have h36 : p.bytes.length = 36 := by omega
    have hah : afterHeader p.bytes =
        { is_open := true, content := p.bytes, pos := 36, eofbit := false, failbit := false } := by
      simp [afterHeader, h]
    rw [findDataChunk_step _ _ _ hprobe (by rw [hah]), hah,
      read_short _ sizeof_data_chunk_t rfl rfl rfl (by simp only [h36]; omega)
        (by simp only [sizeof_data_chunk_t, h36]; omega)]
    have e : List.drop 36 p.bytes = [] := List.drop_of_length_le (by omega)
    simp only [e, overwrite, List.nil_append, List.length_nil, List.drop_zero]
    rw [findDataChunk_eof _ _ _ hprobe rfl]; rfl

/-- A file of at least 44 bytes with `RIFF` at 0, `WAVE` at 8, `fmt ` at 12, fmt chunk size 16,
compression code 1 and `data` at 36 is accepted by `SetInputFile` whenever the memory of the
local `chunk` does not read `data` before the first read: no exception, cursor at offset 44, end
of file not signalled, and `GetInputSampleSize()` is the `u16` at offset 34 divided by 8. -/
theorem canonical_input_accepted (self : WavTransceiver) (p : path_t) (chunk : List Nat)
    (hf : p.found = true) (ho : p.opens = true) (hlen : 44 ≤ p.bytes.length)
    (hriff : p.bytes.take 4 = cstr "RIFF") (hwave : (p.bytes.drop 8).take 4 = cstr "WAVE")
    (hfmt : (p.bytes.drop 12).take 4 = cstr "fmt ") (hsize : rd32 p.bytes 16 = 16)
    (hcomp : rd16 p.bytes 20 = 1) (hdata : (p.bytes.drop 36).take 4 = cstr "data")
    (hprobe : chunk.take 4 ≠ cstr "data") :
    ∃ w : WavTransceiver,
      SetInputFile self p chunk = some (w, none)
        ∧ w.input_stream.pos = 44
        ∧ w.input_stream.eof = false
        ∧ GetInputSampleSize w = some (rd16 p.bytes 34 / 8) := by
  have hprobe' : rdTag chunk 0 ≠ cstr "data" := fun c =>
    hprobe ((take4_eq_iff chunk 100 97 116 97 (by decide)).2 c)
  exact ⟨_, SetInputFile_canonical self p chunk hf ho hlen ((tag_RIFF _).1 hriff)
    ((tag_WAVE _).1 hwave) (fmt4_fmt3 _ ((tag_fmt4 _).1 hfmt)) hsize hcomp
    ((tag_data _ 36).1 hdata) hprobe', rfl, rfl, rfl⟩

/-- The same file when the memory of the local `chunk` already reads `data`: the loop condition
is false before any read, so `SetInputFile` returns normally with the cursor still at offset 36,
in front of the data-chunk header. -/
theorem canonical_input_probe_data (self : WavTransceiver) (p : path_t) (chunk : List Nat)
    (hf : p.found = true) (ho : p.opens = true) (hlen : 44 ≤ p.bytes.length)
    (hriff : p.bytes.take 4 = cstr "RIFF") (hwave : (p.bytes.drop 8).take 4 = cstr "WAVE")
    (hfmt : (p.bytes.drop 12).take 4 = cstr "fmt ") (hsize : rd32 p.bytes 16 = 16)
    (hcomp : rd16 p.bytes 20 = 1) (hprobe : chunk.take 4 = cstr "data") :
    ∃ w : WavTransceiver,
      SetInputFile self p chunk = some (w, none)
        ∧ w.input_stream.pos = 36
        ∧ w.input_stream.content.drop w.input_stream.pos = p.bytes.drop 36 := by
  have hprobe' : rdTag chunk 0 = cstr "data" :=
    (take4_eq_iff chunk 100 97 116 97 (by decide)).1 hprobe
  have hah : afterHeader p.bytes =
      { is_open := true, content := p.bytes, pos := 36, eofbit := false, failbit := false } := by
    have : ¬ p.bytes.length < 36 := by omega
    simp [afterHeader, this]
  rw [SetInputFile_opened self p chunk hf ho]
  simp only [(tag_RIFF _).1 hriff, (tag_WAVE _).1 hwave, fmt4_fmt3 _ ((tag_fmt4 _).1 hfmt),
    hsize, hcomp, ne_eq, not_true_eq_false, if_false]
  rw [findDataChunk_found _ _ _ hprobe', hah]
  exact ⟨_, rfl, rfl, rfl⟩

/-! ## Claims C1 to C10 -/

/-- C1, as amended. After `SetOutputFile` on a fresh path and any sequence of `WriteData` calls
whose payloads total `N` bytes with `44 + N < 2^32`, the output file is `44 + N` bytes long; and
when at least one call was made, the little-endian `u32` at offset 4 is `44 + N - 8`. -/
theorem C1_riff_size_after_writes (self : WavTransceiver) (p : path_t) (slice_rate data_rate : Nat)
    (calls : List (List Nat × Bool)) (hfound : p.found = false) (hopens : p.opens = true)
    (hN : 44 + payloadTotal calls < 2 ^ 32) :
    (outputFile (writeAll (SetOutputFile self p slice_rate data_rate).1 calls)).length
        = 44 + payloadTotal calls
      ∧ (calls ≠ [] →
          rd32 (outputFile (writeAll (SetOutputFile self p slice_rate data_rate).1 calls)) 4
            = 44 + payloadTotal calls - 8) := by
  obtain ⟨hr, hl⟩ := SetOutputFile_ready self p slice_rate data_rate hfound hopens
  refine ⟨by rw [(writeAll_ready calls _ hr).2, hl], fun hne => ?_⟩
  rw [(writeAll_fields _ calls hr hne).1, hl]
  omega

/-- C1 witness: writing `[1, 2, 3, 4]` gives a file of 48 bytes whose RIFF size field is 40. -/
theorem C1_riff_size_after_writes_witness :
    freshPath.found = false ∧ freshPath.opens = true
      ∧ 44 + payloadTotal [([1, 2, 3, 4], true)] < 2 ^ 32
      ∧ (outputFile
          (writeAll (SetOutputFile WavTransceiver.new freshPath 48000 176400).1
            [([1, 2, 3, 4], true)])).length = 48
      ∧ rd32 (outputFile
          (writeAll (SetOutputFile WavTransceiver.new freshPath 48000 176400).1
            [([1, 2, 3, 4], true)])) 4 = 40 :=
  ⟨rfl, rfl, by decide,
    (C1_riff_size_after_writes WavTransceiver.new freshPath 48000 176400 [([1, 2, 3, 4], true)]
      rfl rfl (by decide)).1,
    (C1_riff_size_after_writes WavTransceiver.new freshPath 48000 176400 [([1, 2, 3, 4], true)]
      rfl rfl (by decide)).2 (by decide)⟩

/-- C1 fails as stated for the sequence of no calls: right after `SetOutputFile` the file is 44
bytes long and the RIFF size field still holds the placeholder 28, not `44 + 0 - 8 = 36`. -/
theorem C1_no_call_counterexample :
    (outputFile (writeAll (SetOutputFile WavTransceiver.new freshPath 48000 176400).1 [])).length
        = 44
      ∧ rd32 (outputFile (writeAll (SetOutputFile WavTransceiver.new freshPath 48000 176400).1 []))
          4 = 28
      ∧ ¬ ((outputFile
              (writeAll (SetOutputFile WavTransceiver.new freshPath 48000 176400).1 [])).length
            = 44 + payloadTotal []
          ∧ rd32 (outputFile
              (writeAll (SetOutputFile WavTransceiver.new freshPath 48000 176400).1 [])) 4
            = 44 + payloadTotal [] - 8) := by
  decide

/-- C2, as amended. After `SetOutputFile` on a fresh path and any sequence of `WriteData` calls
whose payloads total `N` bytes, the little-endian `u32` at offset 40 is `(N + 8) mod 2^32`: the
payload and the 8 bytes of the data-chunk header. -/
theorem C2_data_size_after_writes (self : WavTransceiver) (p : path_t) (slice_rate data_rate : Nat)
    (calls : List (List Nat × Bool)) (hfound : p.found = false) (hopens : p.opens = true) :
    rd32 (outputFile (writeAll (SetOutputFile self p slice_rate data_rate).1 calls)) 40
      = (payloadTotal calls + 8) % 2 ^ 32 := by
  obtain ⟨hr, hl⟩ := SetOutputFile_ready self p slice_rate data_rate hfound hopens
  by_cases hne : calls = []
  · subst hne
    have e : writeAll (SetOutputFile self p slice_rate data_rate).1 [] =
        (SetOutputFile self p slice_rate data_rate).1 := rfl
    rw [e, outputFile, (SetOutputFile_stream self p slice_rate data_rate hfound hopens).2]
    simp [rd32, payloadTotal]
  · rw [(writeAll_fields _ calls hr hne).2, hl]
    omega

/-- C2 witness: after writing `[1, 2, 3, 4]` the data size field is 12. -/
theorem C2_data_size_after_writes_witness :
    freshPath.found = false ∧ freshPath.opens = true
      ∧ rd32 (outputFile
          (writeAll (SetOutputFile WavTransceiver.new freshPath 48000 176400).1
            [([1, 2, 3, 4], true)])) 40 = 12 :=
  ⟨rfl, rfl,
    C2_data_size_after_writes WavTransceiver.new freshPath 48000 176400 [([1, 2, 3, 4], true)]
      rfl rfl⟩

/-- C2 fails as stated: after writing the 4 bytes `[1, 2, 3, 4]` the data size field is not 4. -/
theorem C2_four_bytes_counterexample :
    rd32 (outputFile
        (writeAll (SetOutputFile WavTransceiver.new freshPath 48000 176400).1
          [([1, 2, 3, 4], true)])) 40 = 12
      ∧ ¬ (rd32 (outputFile
            (writeAll (SetOutputFile WavTransceiver.new freshPath 48000 176400).1
              [([1, 2, 3, 4], true)])) 40
          = payloadTotal [([1, 2, 3, 4], true)]) := by
  decide

/-- C3, as amended. After every `WriteData` call on an output opened by `SetOutputFile`, the
little-endian `u32` at offset `sizeof(wav_header_t) + 4 = 40` is
`(file length - sizeof(wav_header_t)) mod 2^32`, with `sizeof(wav_header_t) = 36`: it is
`file length - 36` whenever that is below `2^32`. -/
theorem C3_data_size_patch (self : WavTransceiver) (p : path_t) (slice_rate data_rate : Nat)
    (calls : List (List Nat × Bool)) (data : List Nat) (flush : Bool)
    (hfound : p.found = false) (hopens : p.opens = true) :
    sizeof_wav_header_t + 4 = 40
      ∧ rd32 (outputFile
          (WriteData (writeAll (SetOutputFile self p slice_rate data_rate).1 calls) data flush))
          (sizeof_wav_header_t + 4)
        = ((outputFile
            (WriteData (writeAll (SetOutputFile self p slice_rate data_rate).1 calls) data
              flush)).length - sizeof_wav_header_t) % 2 ^ 32
      ∧ ((outputFile
            (WriteData (writeAll (SetOutputFile self p slice_rate data_rate).1 calls) data
              flush)).length - sizeof_wav_header_t < 2 ^ 32 →
          rd32 (outputFile
            (WriteData (writeAll (SetOutputFile self p slice_rate data_rate).1 calls) data
              flush)) (sizeof_wav_header_t + 4)
          = (outputFile
            (WriteData (writeAll (SetOutputFile self p slice_rate data_rate).1 calls) data
              flush)).length - sizeof_wav_header_t) := by
  obtain ⟨hr, hl⟩ := SetOutputFile_ready self p slice_rate data_rate hfound hopens
  obtain ⟨r1, r2⟩ := writeAll_ready calls _ hr
  have e1 := WriteData_data_size _ data flush r1
  have e2 := WriteData_length _ data flush r1
  simp only [sizeof_wav_header_t] at *
  rw [e1, e2, r2, hl]
  refine ⟨trivial, ?_, fun h => ?_⟩ <;> omega

/-- C3 witness: after writing `[1, 2, 3, 4]` the file is 48 bytes long and the field is 12. -/
theorem C3_data_size_patch_witness :
    freshPath.found = false ∧ freshPath.opens = true
      ∧ (outputFile
          (WriteData (writeAll (SetOutputFile WavTransceiver.new freshPath 48000 176400).1 [])
            [1, 2, 3, 4] true)).length = 48
      ∧ rd32 (outputFile
          (WriteData (writeAll (SetOutputFile WavTransceiver.new freshPath 48000 176400).1 [])
            [1, 2, 3, 4] true)) 40 = 48 - 36 :=
  ⟨rfl, rfl, by decide,
    (C3_data_size_patch WavTransceiver.new freshPath 48000 176400 [] [1, 2, 3, 4] true
      rfl rfl).2.2 (by decide)⟩

/-- C3 fails as stated once `file length - 36` does not fit 32 bits: one `WriteData` call with
`2^32 - 8` bytes right after `SetOutputFile` makes the file `2^32 + 36` bytes long; the field
then holds 0, not `2^32`. -/
theorem C3_wraparound_counterexample :
    (outputFile
        (WriteData (SetOutputFile WavTransceiver.new freshPath 48000 176400).1
          (List.replicate 4294967288 0) true)).length = 4294967332
      ∧ rd32 (outputFile
          (WriteData (SetOutputFile WavTransceiver.new freshPath 48000 176400).1
            (List.replicate 4294967288 0) true)) 40 = 0
      ∧ ¬ (rd32 (outputFile
            (WriteData (SetOutputFile WavTransceiver.new freshPath 48000 176400).1
              (List.replicate 4294967288 0) true)) 40
          = (outputFile
            (WriteData (SetOutputFile WavTransceiver.new freshPath 48000 176400).1
              (List.replicate 4294967288 0) true)).length - 36) := by
  obtain ⟨hr, hl⟩ := SetOutputFile_ready WavTransceiver.new freshPath 48000 176400 rfl rfl
  rw [WriteData_data_size _ _ _ hr, WriteData_length _ _ _ hr, hl, List.length_replicate]
  refine ⟨?_, ?_, ?_⟩ <;> omega

/-- C4. `SetOutputFile` on a path where no file exists returns normally and leaves an output
file of exactly these 44 bytes: `RIFF`, 28, `WAVE`, `fmt `, 16, 1, 2, the slice rate, the data
rate, 4, 16, `data`, 8, every integer little-endian. The two size fields hold 28 and 8, which
are not `44 - 8` and `44 - 36`. -/
theorem C4_synthesized_header (self : WavTransceiver) (p : path_t) (slice_rate data_rate : Nat)
    (hfound : p.found = false) (hopens : p.opens = true)
    (hr : slice_rate < 2 ^ 32) (hd : data_rate < 2 ^ 32) :
    (SetOutputFile self p slice_rate data_rate).2 = none
      ∧ outputFile (SetOutputFile self p slice_rate data_rate).1 =
        [82, 73, 70, 70, 28, 0, 0, 0, 87, 65, 86, 69,
          102, 109, 116, 32, 16, 0, 0, 0, 1, 0, 2, 0,
          slice_rate % 256, slice_rate / 256 % 256, slice_rate / 65536 % 256,
          slice_rate / 16777216 % 256,
          data_rate % 256, data_rate / 256 % 256, data_rate / 65536 % 256,
          data_rate / 16777216 % 256,
          4, 0, 16, 0, 100, 97, 116, 97, 8, 0, 0, 0]
      ∧ (outputFile (SetOutputFile self p slice_rate data_rate).1).length = 44
      ∧ rd32 (outputFile (SetOutputFile self p slice_rate data_rate).1) 24 = slice_rate
      ∧ rd32 (outputFile (SetOutputFile self p slice_rate data_rate).1) 28 = data_rate
      ∧ rd32 (outputFile (SetOutputFile self p slice_rate data_rate).1) 4 = 28
      ∧ rd32 (outputFile (SetOutputFile self p slice_rate data_rate).1) 40 = 8 := by
  obtain ⟨h1, h2⟩ := SetOutputFile_stream self p slice_rate data_rate hfound hopens
  refine ⟨h1, ?_, ?_, ?_, ?_, ?_, ?_⟩ <;> rw [outputFile, h2] <;> simp [rd32] <;> omega

/-- C4 witness: the header synthesized for the default rates 48000 and 176400. -/
theorem C4_synthesized_header_witness :
    freshPath.found = false ∧ freshPath.opens = true ∧ 48000 < 2 ^ 32 ∧ 176400 < 2 ^ 32
      ∧ outputFile (SetOutputFile WavTransceiver.new freshPath 48000 176400).1 =
        [82, 73, 70, 70, 28, 0, 0, 0, 87, 65, 86, 69,
          102, 109, 116, 32, 16, 0, 0, 0, 1, 0, 2, 0,
          128, 187, 0, 0, 16, 177, 2, 0,
          4, 0, 16, 0, 100, 97, 116, 97, 8, 0, 0, 0] :=
  ⟨rfl, rfl, by decide, by decide,
    (C4_synthesized_header WavTransceiver.new freshPath 48000 176400 rfl rfl
      (by decide) (by decide)).2.1⟩

/-- C5, the code at the failing input. The canonical 48-byte sample file meets every condition
of the claim. `SetInputFile` leaves the cursor at offset 44 when the memory of its uninitialised
local `chunk` holds zeros; when that memory reads `data` the scan loop is left before any read,
the cursor stays at offset 36, and `GetNextData(1)` returns `[100, 97]`, the first two bytes of
the data-chunk header, in place of sample data. -/
theorem C5_uninitialised_probe_skips_scan :
    44 ≤ sampleWav.length ∧ sampleWav.take 4 = cstr "RIFF"
      ∧ (sampleWav.drop 8).take 4 = cstr "WAVE" ∧ (sampleWav.drop 12).take 4 = cstr "fmt "
      ∧ rd32 sampleWav 16 = 16 ∧ rd16 sampleWav 20 = 1
      ∧ (sampleWav.drop 36).take 4 = cstr "data"
      ∧ (SetInputFile WavTransceiver.new (fileOf sampleWav) zeroChunk).map
          (fun r => (r.2, r.1.input_stream.pos, (GetNextData r.1 1).2))
        = some (none, 44, Slice.buffer [1, 2])
      ∧ (SetInputFile WavTransceiver.new (fileOf sampleWav) dataProbe).map
          (fun r => (r.2, r.1.input_stream.pos, (GetNextData r.1 1).2))
        = some (none, 36, Slice.buffer [100, 97]) := by
  decide

/-- C6. `SetInputFile` on an existing, readable file of any length reports the first failing
check in the order RIFF tag, WAVE tag, fmt tag (its first three characters), compression code,
fmt chunk size, data-chunk scan: an earlier failure hides every later one. The six messages are
pairwise distinct. -/
theorem C6_validation_order (self : WavTransceiver) (p : path_t) (chunk : List Nat)
    (hf : p.found = true) (ho : p.opens = true) :
    (p.bytes.take 4 ≠ cstr "RIFF" →
        (SetInputFile self p chunk).map Prod.snd = some (some NotRiff))
      ∧ (p.bytes.take 4 = cstr "RIFF" → (p.bytes.drop 8).take 4 ≠ cstr "WAVE" →
        (SetInputFile self p chunk).map Prod.snd = some (some NotWave))
      ∧ (p.bytes.take 4 = cstr "RIFF" → (p.bytes.drop 8).take 4 = cstr "WAVE" →
        (p.bytes.drop 12).take 3 ≠ cstr "fmt" →
        (SetInputFile self p chunk).map Prod.snd = some (some MissingFormatChunk))
      ∧ (p.bytes.take 4 = cstr "RIFF" → (p.bytes.drop 8).take 4 = cstr "WAVE" →
        (p.bytes.drop 12).take 3 = cstr "fmt" → rd16 p.bytes 20 ≠ 1 →
        (SetInputFile self p chunk).map Prod.snd = some (some UnsupportedCompression))
      ∧ (p.bytes.take 4 = cstr "RIFF" → (p.bytes.drop 8).take 4 = cstr "WAVE" →
        (p.bytes.drop 12).take 3 = cstr "fmt" → rd16 p.bytes 20 = 1 → rd32 p.bytes 16 ≠ 16 →
        (SetInputFile self p chunk).map Prod.snd = some (some UnsupportedExtendedFormat))
      ∧ (p.bytes.take 4 = cstr "RIFF" → (p.bytes.drop 8).take 4 = cstr "WAVE" →
        (p.bytes.drop 12).take 3 = cstr "fmt" → rd16 p.bytes 20 = 1 → rd32 p.bytes 16 = 16 →
        p.bytes.length ≤ 36 → chunk.take 4 ≠ cstr "data" →
        (SetInputFile self p chunk).map Prod.snd = some (some MissingDataChunk))
      ∧ [NotRiff, NotWave, MissingFormatChunk, UnsupportedCompression,
          UnsupportedExtendedFormat, MissingDataChunk].Nodup := by
  rw [SetInputFile_opened self p chunk hf ho]
  simp only [ne_eq, tag_RIFF, tag_WAVE, tag_fmt3]
  refine ⟨?_, ?_, ?_, ?_, ?_, ?_, by decide⟩
  · intro h1
    simp only [ne_eq, h1, not_false_eq_true, if_true, Option.map_some']
  · intro h1 h2
    simp only [ne_eq, h1, h2, not_true_eq_false, not_false_eq_true, if_true, if_false,
      Option.map_some']
  · intro h1 h2 h3
    simp only [ne_eq, h1, h2, h3, not_true_eq_false, not_false_eq_true, if_true, if_false,
      Option.map_some']
  · intro h1 h2 h3 h4
    simp only [ne_eq, h1, h2, h3, h4, not_true_eq_false, not_false_eq_true, if_true, if_false,
      Option.map_some']
  · intro h1 h2 h3 h4 h5
    simp only [ne_eq, h1, h2, h3, h4, h5, not_true_eq_false, not_false_eq_true, if_true,
      if_false, Option.map_some']
  · intro h1 h2 h3 h4 h5 hlen hprobe
    have hprobe' : rdTag chunk 0 ≠ cstr "data" := fun c =>
      hprobe ((take4_eq_iff chunk 100 97 116 97 (by decide)).2 c)
    simp only [ne_eq, h1, h2, h3, h4, h5, not_true_eq_false, if_false, Option.map_map]
    exact SetInputFile_no_data p chunk hlen hprobe'

/-- C6 witness: one rejected file per check, the later fields of each being wrong as well. -/
theorem C6_validation_order_witness :
    (SetInputFile WavTransceiver.new (fileOf [82, 73]) zeroChunk).map Prod.snd
        = some (some NotRiff)
      ∧ (SetInputFile WavTransceiver.new (fileOf (cstr "RIFF" ++ u32le 0 ++ cstr "WAVX"))
          zeroChunk).map Prod.snd = some (some NotWave)
      ∧ (SetInputFile WavTransceiver.new (fileOf (sampleHeader (cstr "fmx ") 3 18 16))
          zeroChunk).map Prod.snd = some (some MissingFormatChunk)
      ∧ (SetInputFile WavTransceiver.new (fileOf (sampleHeader (cstr "fmt ") 3 18 16))
          zeroChunk).map Prod.snd = some (some UnsupportedCompression)
      ∧ (SetInputFile WavTransceiver.new (fileOf (sampleHeader (cstr "fmt ") 1 18 16))
          zeroChunk).map Prod.snd = some (some UnsupportedExtendedFormat)
      ∧ (SetInputFile WavTransceiver.new (fileOf (sampleHeader (cstr "fmt ") 1 16 16))
          zeroChunk).map Prod.snd = some (some MissingDataChunk) :=
  ⟨(C6_validation_order WavTransceiver.new (fileOf [82, 73]) zeroChunk rfl rfl).1 (by decide),
    (C6_validation_order WavTransceiver.new (fileOf (cstr "RIFF" ++ u32le 0 ++ cstr "WAVX"))
      zeroChunk rfl rfl).2.1 (by decide) (by decide),
    (C6_validation_order WavTransceiver.new (fileOf (sampleHeader (cstr "fmx ") 3 18 16))
      zeroChunk rfl rfl).2.2.1 (by decide) (by decide) (by decide),
    (C6_validation_order WavTransceiver.new (fileOf (sampleHeader (cstr "fmt ") 3 18 16))
      zeroChunk rfl rfl).2.2.2.1 (by decide) (by decide) (by decide) (by decide),
    (C6_validation_order WavTransceiver.new (fileOf (sampleHeader (cstr "fmt ") 1 18 16))
      zeroChunk rfl rfl).2.2.2.2.1 (by decide) (by decide) (by decide) (by decide) (by decide),
    (C6_validation_order WavTransceiver.new (fileOf (sampleHeader (cstr "fmt ") 1 16 16))
      zeroChunk rfl rfl).2.2.2.2.2.1 (by decide) (by decide) (by decide) (by decide) (by decide)
      (by decide) (by decide)⟩

/-- C7, the code at the failing inputs: a file that is canonical except that its format tag is
`fmtX`, or `fmt` followed by a zero byte, is accepted; `MissingFormatChunk` is not thrown. -/
theorem C7_fmt_tag_fourth_byte_ignored :
    (fmtXWav.drop 12).take 4 ≠ cstr "fmt " ∧ (fmtNulWav.drop 12).take 4 ≠ cstr "fmt "
      ∧ (SetInputFile WavTransceiver.new (fileOf fmtXWav) zeroChunk).map Prod.snd = some none
      ∧ (SetInputFile WavTransceiver.new (fileOf fmtNulWav) zeroChunk).map Prod.snd
          = some none := by
  decide

/-- C8, the code at the failing input: a valid 36-byte header followed by the 9 bytes
`Xata1234d` holds the four bytes `data` at no offset, yet `SetInputFile` returns normally: the
last probe stores the single `d` over the `X` of the previous probe and the loop condition then
reads `data`. The stream is left at end of file. -/
theorem C8_stale_probe_bytes_accepted :
    (∀ o : Nat, (staleProbeWav.drop o).take 4 ≠ cstr "data")
      ∧ (SetInputFile WavTransceiver.new (fileOf staleProbeWav) zeroChunk).map
            (fun r => (r.2, r.1.input_stream.eof)) = some (none, true) := by
  refine ⟨?_, by decide⟩
  intro o
  by_cases h : o < 45
  · interval_cases o <;> decide
  · intro c
    have hl : ((staleProbeWav.drop o).take 4).length = 0 := by
      simp only [List.length_take, List.length_drop]
      have : staleProbeWav.length = 45 := by decide
      omega
    rw [c] at hl
    exact absurd hl (by decide)

/-- C9, the code at the failing inputs: after a `SetInputFile` call that threw on one of the
header checks, `GetNextData(1)` does not throw but returns the bytes at offsets 36 and 37 of the
rejected file; after one that threw `MissingDataChunk` it returns `nullptr`. -/
theorem C9_rejected_file_is_read :
    (SetInputFile WavTransceiver.new
        (fileOf (cstr "XIFF" ++ sampleWav.drop 4)) zeroChunk).map
          (fun r => (r.2, (GetNextData r.1 1).2))
        = some (some NotRiff, Slice.buffer [100, 97])
      ∧ (SetInputFile WavTransceiver.new
        (fileOf (sampleWav.take 8 ++ cstr "WAVX" ++ sampleWav.drop 12)) zeroChunk).map
          (fun r => (r.2, (GetNextData r.1 1).2))
        = some (some NotWave, Slice.buffer [100, 97])
      ∧ (SetInputFile WavTransceiver.new
        (fileOf (sampleHeader (cstr "fmx ") 1 16 16 ++ sampleWav.drop 36)) zeroChunk).map
          (fun r => (r.2, (GetNextData r.1 1).2))
        = some (some MissingFormatChunk, Slice.buffer [100, 97])
      ∧ (SetInputFile WavTransceiver.new
        (fileOf (sampleHeader (cstr "fmt ") 3 16 16 ++ sampleWav.drop 36)) zeroChunk).map
          (fun r => (r.2, (GetNextData r.1 1).2))
        = some (some UnsupportedCompression, Slice.buffer [100, 97])
      ∧ (SetInputFile WavTransceiver.new
        (fileOf (sampleHeader (cstr "fmt ") 1 18 16 ++ sampleWav.drop 36)) zeroChunk).map
          (fun r => (r.2, (GetNextData r.1 1).2))
        = some (some UnsupportedExtendedFormat, Slice.buffer [100, 97])
      ∧ (SetInputFile WavTransceiver.new
        (fileOf (sampleHeader (cstr "fmt ") 1 16 16 ++ cstr "LIST" ++ u32le 0)) zeroChunk).map
          (fun r => (r.2, (GetNextData r.1 1).2))
        = some (some MissingDataChunk, Slice.nullptr) := by
  decide

/-- C10, the code at the failing input: on the canonical 16-bit file with the 4-byte payload
`[1, 2, 3, 4]`, four calls `GetNextData(1)` give `[1, 2]`, `[3, 4]`, a third buffer `[0, 0]` and
only then `nullptr`. -/
theorem C10_extra_buffer_before_end :
    (SetInputFile WavTransceiver.new (fileOf sampleWav) zeroChunk).map
        (fun r => (r.2, readSlices 4 r.1 1))
      = some (none, [Slice.buffer [1, 2], Slice.buffer [3, 4], Slice.buffer [0, 0],
          Slice.nullptr]) := by
  decide

/-! ## The writer: what a call leaves untouched -/

theorem ext_getD0 (l1 l2 : List Nat) (hlen : l1.length = l2.length)
    (h : ∀ i, l1.getD i 0 = l2.getD i 0) : l1 = l2 := by
  apply List.ext_getElem hlen
  intro n h1 h2
  have e := h n
  rwa [List.getD_eq_getElem l1 0 h1, List.getD_eq_getElem l2 0 h2] at e

theorem getElem_opt_of_getD0 (l1 l2 : List Nat) (i : Nat) (h1 : i < l1.length) (h2 : i < l2.length)
    (h : l1.getD i 0 = l2.getD i 0) : l1[i]? = l2[i]? := by
  rw [List.getD_eq_getElem l1 0 h1, List.getD_eq_getElem l2 0 h2] at h
  rw [List.getElem?_eq_getElem h1, List.getElem?_eq_getElem h2, h]

theorem WriteData_getD_other (self : WavTransceiver) (data : List Nat) (flush : Bool)
    (h : WriterReady self.output_stream) (i : Nat)
    (hi : i < 4 ∨ (8 ≤ i ∧ i < 40) ∨ 44 ≤ i) :
    (outputFile (WriteData self data flush)).getD i 0
      = (outputFile self ++ data).getD i 0 := by
  have hl : ∀ n, (u32le n).length = 4 := fun n => rfl
  rw [outputFile, WriteData_stream self data flush h]
  simp only [getD_writeAt, hl, outputFile]
  have a1 : ¬ (¬ i < 40 ∧ i < 40 + 4) := by omega
  have a2 : ¬ (¬ i < 4 ∧ i < 4 + 4) := by omega
  by_cases c1 : i < 40
  · by_cases c2 : i < 4
    · simp only [c1, c2, if_true]
    · have c3 : ¬ i < 4 + 4 := by omega
      simp only [c1, c2, c3, if_true, if_false]
  · have c2 : ¬ i < 40 + 4 := by omega
    have c3 : ¬ i < 4 := by omega
    have c4 : ¬ i < 4 + 4 := by omega
    simp only [c1, c2, c3, c4, if_false]

theorem WriteData_drop (self : WavTransceiver) (data : List Nat) (flush : Bool)
    (h : WriterReady self.output_stream) (n : Nat) (hn : 44 ≤ n) :
    (outputFile (WriteData self data flush)).drop n = (outputFile self ++ data).drop n := by
  apply ext_getD0
  · simp only [List.length_drop, WriteData_length self data flush h, List.length_append]
  · intro i
    rw [getD_drop0, getD_drop0, WriteData_getD_other self data flush h _ (by omega)]

theorem WriteData_appends (self : WavTransceiver) (data : List Nat) (flush : Bool)
    (h : WriterReady self.output_stream) :
    (outputFile (WriteData self data flush)).drop (outputFile self).length = data := by
  have h44 : 44 ≤ (outputFile self).length := h.2.2.2
  rw [WriteData_drop self data flush h _ h44]
  simp

theorem writeAll_payload (calls : List (List Nat × Bool)) :
    ∀ self : WavTransceiver, WriterReady self.output_stream →
      (outputFile (writeAll self calls)).drop 44 = (outputFile self).drop 44 ++ payloadOf calls := by
  induction calls with
  | nil => intro self _; simp [writeAll, payloadOf]
  | cons c cs ih =>
    intro self h
    have e : writeAll self (c :: cs) = writeAll (WriteData self c.1 c.2) cs := rfl
    have h44 : 44 ≤ (outputFile self).length := h.2.2.2
    rw [e, ih _ (WriteData_ready self c.1 c.2 h), WriteData_drop self c.1 c.2 h 44 (le_refl _),
      List.drop_append_of_le_length h44]
    simp [payloadOf]

theorem writeAll_header (calls : List (List Nat × Bool)) :
    ∀ self : WavTransceiver, WriterReady self.output_stream →
      ∀ i, i < 4 ∨ (8 ≤ i ∧ i < 40) →
        (outputFile (writeAll self calls)).getD i 0 = (outputFile self).getD i 0 := by
  induction calls with
  | nil => intro self _ i _; rfl
  | cons c cs ih =>
    intro self h i hi
    have e : writeAll self (c :: cs) = writeAll (WriteData self c.1 c.2) cs := rfl
    have h44 : 44 ≤ (outputFile self).length := h.2.2.2
    rw [e, ih _ (WriteData_ready self c.1 c.2 h) i hi,
      WriteData_getD_other self c.1 c.2 h i (by omega), getD_append0, if_pos (by omega)]

/-! ## The reader after a successful open -/

theorem findDataChunk_state (fuel : Nat) :
    ∀ (s : ifstream) (chunk : List Nat) (r : ifstream × List Nat × Option String),
      findDataChunk fuel s chunk = some r → (ReaderGood s ∨ s.eofbit = true) →
      r.1.content = s.content ∧ (ReaderGood r.1 ∨ r.1.eofbit = true) := by
  induction fuel with
  | zero => intro s chunk r h; simp [findDataChunk] at h
  | succ n ih =>
    intro s chunk r h hs
    by_cases ht : rdTag chunk 0 = cstr "data"
    · rw [findDataChunk_found n s chunk ht] at h
      cases h; exact ⟨rfl, hs⟩
    · by_cases he : s.eofbit = true
      · rw [findDataChunk_eof n s chunk ht he] at h
        cases h; exact ⟨rfl, hs⟩
      · have he' : s.eofbit = false := by simpa using he
        rw [findDataChunk_step n s chunk ht he'] at h
        rcases hs with ⟨_, hfl, hp, hop⟩ | hs
        · by_cases hfull : s.pos + sizeof_data_chunk_t ≤ s.content.length
          · rw [read_full s _ he' hfl hop hfull] at h
            have := ih _ _ r h (Or.inl ⟨he', hfl, hfull, hop⟩)
            exact this
          · rw [read_short s _ he' hfl hop hp (by omega)] at h
            have := ih _ _ r h (Or.inr rfl)
            exact this
        · exact absurd hs he

theorem afterHeader_state (bytes : List Nat) :
    (afterHeader bytes).content = bytes
      ∧ (ReaderGood (afterHeader bytes) ∨ (afterHeader bytes).eofbit = true) := by
  unfold afterHeader
  split
  · exact ⟨rfl, Or.inr rfl⟩
  · exact ⟨rfl, Or.inl ⟨rfl, rfl, by simp only; omega, rfl⟩⟩

/-- What a normal return of `SetInputFile` leaves behind: the header of the file, the stream over
the bytes of the file, either readable or at end of file, and an untouched output side. -/
theorem SetInputFile_success (self : WavTransceiver) (p : path_t) (chunk : List Nat)
    (w : WavTransceiver) (h : SetInputFile self p chunk = some (w, none)) :
    w.input_header = some (wav_header_t.ofBytes p.bytes)
      ∧ w.input_stream.content = p.bytes
      ∧ (ReaderGood w.input_stream ∨ w.input_stream.eofbit = true)
      ∧ w.output_stream = self.output_stream := by
  have hf : p.found = true := by
    by_contra c
    simp [SetInputFile, c, FileNotFound] at h
  have ho : p.opens = true := by
    by_contra c
    simp [SetInputFile, hf, c, ifstream.mk_open, IoOpenFailure] at h
  rw [SetInputFile_opened self p chunk hf ho] at h
  split_ifs at h
  all_goals first
    | (simp [NotRiff, NotWave, MissingFormatChunk, UnsupportedCompression,
        UnsupportedExtendedFormat] at h; done)
    | skip
  cases hc : findDataChunk (p.bytes.length + 2) (afterHeader p.bytes) chunk with
  | none => rw [hc] at h; simp at h
  | some r =>
    rw [hc] at h
    simp only [Option.map_some', Option.some.injEq, Prod.mk.injEq] at h
    obtain ⟨h1, _⟩ := h
    obtain ⟨a1, a2⟩ := findDataChunk_state _ _ _ r hc (afterHeader_state p.bytes).2
    subst h1
    exact ⟨rfl, by rw [a1, (afterHeader_state p.bytes).1], a2, rfl⟩

theorem overwrite_zeros_full (n : Nat) (got : List Nat) (h : got.length = n) :
    overwrite (List.replicate n 0) got = got := by
  simp [overwrite, h]

theorem overwrite_zeros_short (n : Nat) (got : List Nat) :
    overwrite (List.replicate n 0) got = got ++ List.replicate (n - got.length) 0 := by
  simp [overwrite]

theorem GetNextData_eof (self : WavTransceiver) (h : wav_header_t) (c : Nat)
    (hh : self.input_header = some h) (he : self.input_stream.eofbit = true) :
    GetNextData self c = (self, Slice.nullptr) := by
  simp [GetNextData, hh, ifstream.eof, he]

theorem GetNextData_full (self : WavTransceiver) (h : wav_header_t) (c : Nat)
    (hh : self.input_header = some h) (hg : ReaderGood self.input_stream)
    (hfull : self.input_stream.pos + h.fmt_chunk.sample_depth / 8 * c
      ≤ self.input_stream.content.length) :
    GetNextData self c =
      ({ self with input_stream :=
          { self.input_stream with
            pos := self.input_stream.pos + h.fmt_chunk.sample_depth / 8 * c } },
        Slice.buffer ((self.input_stream.content.drop self.input_stream.pos).take
          (h.fmt_chunk.sample_depth / 8 * c))) := by
  obtain ⟨he, hfl, hp, hop⟩ := hg
  have hl : ((self.input_stream.content.drop self.input_stream.pos).take
      (h.fmt_chunk.sample_depth / 8 * c)).length = h.fmt_chunk.sample_depth / 8 * c := by
    simp only [List.length_take, List.length_drop]; omega
  simp only [GetNextData, hh, ifstream.eof, he, Bool.false_eq_true, if_false,
    read_full _ _ he hfl hop hfull, overwrite_zeros_full _ _ hl]

theorem GetNextData_short (self : WavTransceiver) (h : wav_header_t) (c : Nat)
    (hh : self.input_header = some h) (hg : ReaderGood self.input_stream)
    (hshort : self.input_stream.content.length
      < self.input_stream.pos + h.fmt_chunk.sample_depth / 8 * c) :
    GetNextData self c =
      ({ self with input_stream :=
          { self.input_stream with
            pos := self.input_stream.pos
              + (self.input_stream.content.length - self.input_stream.pos)
            eofbit := true
            failbit := true } },
        Slice.buffer (self.input_stream.content.drop self.input_stream.pos
          ++ List.replicate (h.fmt_chunk.sample_depth / 8 * c
              - (self.input_stream.content.length - self.input_stream.pos)) 0)) := by
  obtain ⟨he, hfl, hp, hop⟩ := hg
  simp only [GetNextData, hh, ifstream.eof, he, Bool.false_eq_true, if_false,
    read_short _ _ he hfl hop hp hshort, overwrite_zeros_short, List.length_drop]

/-- The reader side that `GetNextData` keeps: the header and the bytes of the file stay, and the
stream stays either readable or at end of file. -/
theorem GetNextData_state (self : WavTransceiver) (h : wav_header_t) (c : Nat)
    (hh : self.input_header = some h)
    (hs : ReaderGood self.input_stream ∨ self.input_stream.eofbit = true) :
    (GetNextData self c).1.input_header = some h
      ∧ (GetNextData self c).1.input_stream.content = self.input_stream.content
      ∧ (ReaderGood (GetNextData self c).1.input_stream
          ∨ (GetNextData self c).1.input_stream.eofbit = true)
      ∧ (GetNextData self c).1.output_stream = self.output_stream := by
  by_cases he : self.input_stream.eofbit = true
  · rw [GetNextData_eof self h c hh he]
    exact ⟨hh, rfl, hs, rfl⟩
  · rcases hs with hg | hs
    · by_cases hfull : self.input_stream.pos + h.fmt_chunk.sample_depth / 8 * c
          ≤ self.input_stream.content.length
      · rw [GetNextData_full self h c hh hg hfull]
        exact ⟨hh, rfl, Or.inl ⟨hg.1, hg.2.1, hfull, hg.2.2.2⟩, rfl⟩
      · rw [GetNextData_short self h c hh hg (by omega)]
        exact ⟨hh, rfl, Or.inr rfl, rfl⟩
    · exact absurd hs he

theorem afterReads_state (counts : List Nat) :
    ∀ (self : WavTransceiver) (h : wav_header_t), self.input_header = some h →
      (ReaderGood self.input_stream ∨ self.input_stream.eofbit = true) →
      (afterReads self counts).input_header = some h
        ∧ (afterReads self counts).input_stream.content = self.input_stream.content
        ∧ (ReaderGood (afterReads self counts).input_stream
            ∨ (afterReads self counts).input_stream.eofbit = true) := by
  induction counts with
  | nil => intro self h hh hs; exact ⟨hh, rfl, hs⟩
  | cons c cs ih =>
    intro self h hh hs
    obtain ⟨a1, a2, a3, _⟩ := GetNextData_state self h c hh hs
    have e : afterReads self (c :: cs) = afterReads (GetNextData self c).1 cs := rfl
    rw [e]
    obtain ⟨b1, b2, b3⟩ := ih _ h a1 a3
    exact ⟨b1, by rw [b2, a2], b3⟩

theorem GetNextData_zero (self : WavTransceiver) (h : wav_header_t) (c : Nat)
    (hh : self.input_header = some h) (hg : ReaderGood self.input_stream)
    (hz : h.fmt_chunk.sample_depth / 8 * c = 0) :
    GetNextData self c = (self, Slice.buffer []) := by
  rw [GetNextData_full self h c hh hg (by rw [hz]; exact hg.2.2.1), hz]
  simp

theorem WriteData_input_side (self : WavTransceiver) (data : List Nat) (flush : Bool) :
    (WriteData self data flush).input_header = self.input_header
      ∧ (WriteData self data flush).input_stream = self.input_stream := by
  simp [WriteData]

theorem SetOutputFile_input_side (self : WavTransceiver) (q : path_t) (r d : Nat) :
    (SetOutputFile self q r d).1.input_header = self.input_header
      ∧ (SetOutputFile self q r d).1.input_stream = self.input_stream := by
  by_cases h1 : q.found = true
  · simp [SetOutputFile, h1]
  · by_cases h2 : (ofstream.mk_open q).is_open = true
    · simp [SetOutputFile, h1, h2]
    · simp [SetOutputFile, h1, h2]

theorem copyLoop_zero_width (fuel : Nat) :
    ∀ (wt : WavTransceiver) (h : wav_header_t), wt.input_header = some h →
      ReaderGood wt.input_stream → h.fmt_chunk.sample_depth / 8 = 0 →
      copyLoop fuel wt = none := by
  induction fuel with
  | zero => intro wt h _ _ _; rfl
  | succ n ih =>
    intro wt h hh hg hz
    have e := GetNextData_zero wt h 1 hh hg (by rw [hz])
    have hi := WriteData_input_side wt [] false
    have := ih (WriteData wt [] false) h (by rw [hi.1, hh]) (by rw [hi.2]; exact hg) hz
    simp only [copyLoop, e, this, Option.map_none']

theorem WriteData_payload (self : WavTransceiver) (data : List Nat) (flush : Bool)
    (h : WriterReady self.output_stream) :
    (outputFile (WriteData self data flush)).drop 44 = (outputFile self).drop 44 ++ data := by
  have h44 : 44 ≤ (outputFile self).length := h.2.2.2
  rw [WriteData_drop self data flush h 44 (le_refl _), List.drop_append_of_le_length h44]

/-- The copy loop from a readable input with sample width `wd ≥ 1` and `rem` bytes left: it
makes `rem / wd + 1` writes and appends the bytes left and `wd - rem % wd` zeros. -/
theorem copyLoop_run (wd : Nat) (hwd : 1 ≤ wd) (rem : Nat) :
    ∀ (wt : WavTransceiver) (h : wav_header_t) (fuel : Nat),
      wt.input_header = some h → h.fmt_chunk.sample_depth / 8 = wd →
      ReaderGood wt.input_stream → WriterReady wt.output_stream →
      wt.input_stream.content.length - wt.input_stream.pos = rem →
      rem / wd + 2 ≤ fuel →
      ∃ final : WavTransceiver,
        copyLoop fuel wt = some (final, rem / wd + 1, none)
          ∧ (outputFile final).drop 44
            = (outputFile wt).drop 44 ++ wt.input_stream.content.drop wt.input_stream.pos
                ++ List.replicate (wd - rem % wd) 0 := by
  induction rem using Nat.strong_induction_on with
  | _ rem ih =>
    intro wt h fuel hh hw hg hr hrem hfuel
    have hq0 : 0 ≤ rem / wd := Nat.zero_le _
    obtain ⟨f, rfl⟩ : ∃ f, fuel = f + 1 := ⟨fuel - 1, by omega⟩
    have hw1 : h.fmt_chunk.sample_depth / 8 * 1 = wd := by rw [Nat.mul_one, hw]
    have hp := hg.2.2.1
    by_cases hlt : rem < wd
    · -- the last, short read
      have e := GetNextData_short wt h 1 hh hg (by rw [hw1]; omega)
      rw [hw1, hrem] at e
      obtain ⟨wt1, e, h1hdr, h1out, h1eof⟩ : ∃ wt1 : WavTransceiver,
          GetNextData wt 1 = (wt1, Slice.buffer
            (wt.input_stream.content.drop wt.input_stream.pos ++ List.replicate (wd - rem) 0))
            ∧ wt1.input_header = some h ∧ wt1.output_stream = wt.output_stream
            ∧ wt1.input_stream.eofbit = true := ⟨_, e, hh, rfl, rfl⟩
      have hr1 : WriterReady wt1.output_stream := by rw [h1out]; exact hr
      obtain ⟨g, rfl⟩ : ∃ g, f = g + 1 := ⟨f - 1, by omega⟩
      have hi := WriteData_input_side wt1
        (wt.input_stream.content.drop wt.input_stream.pos ++ List.replicate (wd - rem) 0) false
      have e2 := GetNextData_eof _ h 1 (hi.1.trans h1hdr) (by rw [hi.2]; exact h1eof)
      refine ⟨WriteData wt1
        (wt.input_stream.content.drop wt.input_stream.pos ++ List.replicate (wd - rem) 0) false,
        ?_, ?_⟩
      · simp only [copyLoop, e, e2, Option.map_some', Nat.div_eq_of_lt hlt]
      · rw [WriteData_payload wt1 _ _ hr1, Nat.mod_eq_of_lt hlt, List.append_assoc]
        simp only [outputFile, h1out]
    · -- a full read, then the rest of the loop
      have hge : wd ≤ rem := by omega
      have e := GetNextData_full wt h 1 hh hg (by rw [hw1]; omega)
      rw [hw1] at e
      obtain ⟨wt1, e, h1hdr, h1out, h1in⟩ : ∃ wt1 : WavTransceiver,
          GetNextData wt 1 = (wt1, Slice.buffer
            ((wt.input_stream.content.drop wt.input_stream.pos).take wd))
            ∧ wt1.input_header = some h ∧ wt1.output_stream = wt.output_stream
            ∧ wt1.input_stream = { wt.input_stream with pos := wt.input_stream.pos + wd } :=
        ⟨_, e, hh, rfl, rfl⟩
      have hr1 : WriterReady wt1.output_stream := by rw [h1out]; exact hr
      have hi := WriteData_input_side wt1
        ((wt.input_stream.content.drop wt.input_stream.pos).take wd) false
      have hr2 := WriteData_ready wt1
        ((wt.input_stream.content.drop wt.input_stream.pos).take wd) false hr1
      have hdiv : rem / wd = (rem - wd) / wd + 1 := Nat.div_eq_sub_div (by omega) hge
      have hmod : rem % wd = (rem - wd) % wd := Nat.mod_eq_sub_mod hge
      have hq1 : 0 ≤ (rem - wd) / wd := Nat.zero_le _
      obtain ⟨final, c1, c2⟩ := ih (rem - wd) (by omega) _ h f (hi.1.trans h1hdr) hw
        (by rw [hi.2, h1in]; exact ⟨hg.1, hg.2.1, by simp only; omega, hg.2.2.2⟩) hr2
        (by rw [hi.2, h1in]; simp only; omega) (by omega)
      refine ⟨final, ?_, ?_⟩
      · simp only [copyLoop, e, c1, Option.map_some', hdiv]
      · rw [c2, WriteData_payload wt1 _ _ hr1, hi.2, h1in, hmod]
        simp only [outputFile, h1out, List.append_assoc, List.append_cancel_left_eq]
        rw [← List.append_assoc, ← List.drop_drop, List.take_append_drop]

theorem findDataChunk_at_eof (fuel : Nat) (s : ifstream) (chunk : List Nat)
    (r : ifstream × List Nat × Option String) (h : findDataChunk fuel s chunk = some r)
    (he : s.eofbit = true) : r.1 = s := by
  cases fuel with
  | zero => simp [findDataChunk] at h
  | succ n =>
    by_cases ht : rdTag chunk 0 = cstr "data"
    · rw [findDataChunk_found n s chunk ht] at h; cases h; rfl
    · rw [findDataChunk_eof n s chunk ht he] at h; cases h; rfl

/-- A normal return of the scan loop with end of file not signalled: either the probe memory
read `data` before any read, or the last read was a complete one and the tag `data` stands in
the file right before the 8 bytes that precede the cursor end. -/
theorem findDataChunk_header_read (fuel : Nat) :
    ∀ (s : ifstream) (chunk : List Nat) (r : ifstream × List Nat × Option String),
      findDataChunk fuel s chunk = some r → (ReaderGood s ∨ s.eofbit = true) →
      r.2.2 = none → r.1.eofbit = false →
      (rdTag chunk 0 = cstr "data" ∧ r.1 = s)
        ∨ (s.pos + 8 ≤ r.1.pos ∧ rdTag s.content (r.1.pos - 8) = cstr "data") := by
  induction fuel with
  | zero => intro s chunk r h; simp [findDataChunk] at h
  | succ n ih =>
    intro s chunk r h hs hnone hne
    by_cases ht : rdTag chunk 0 = cstr "data"
    · rw [findDataChunk_found n s chunk ht] at h
      cases h; exact Or.inl ⟨ht, rfl⟩
    · by_cases he : s.eofbit = true
      · rw [findDataChunk_eof n s chunk ht he] at h
        cases h; simp at hnone
      · have he' : s.eofbit = false := by simpa using he
        rw [findDataChunk_step n s chunk ht he'] at h
        rcases hs with ⟨_, hfl, hp, hop⟩ | hs
        · by_cases hfull : s.pos + sizeof_data_chunk_t ≤ s.content.length
          · rw [read_full s _ he' hfl hop hfull] at h
            simp only [sizeof_data_chunk_t] at h hfull
            right
            rcases ih _ _ r h (Or.inl ⟨he', hfl, hfull, hop⟩) hnone hne with ⟨a1, a2⟩ | ⟨a1, a2⟩
            · rw [a2]
              refine ⟨le_refl _, ?_⟩
              rw [rdTag_overwrite_full chunk s.content s.pos hfull] at a1
              simpa using a1
            · exact ⟨by simp only at a1; omega, a2⟩
          · rw [read_short s _ he' hfl hop hp (by omega)] at h
            have := findDataChunk_at_eof _ _ _ r h rfl
            rw [this] at hne
            simp at hne
        · exact absurd hs he

theorem SetInputFile_header_read (self : WavTransceiver) (p : path_t) (chunk : List Nat)
    (w : WavTransceiver) (h : SetInputFile self p chunk = some (w, none))
    (heof : w.input_stream.eofbit = false) (hprobe : rdTag chunk 0 ≠ cstr "data") :
    44 ≤ w.input_stream.pos ∧ rdTag p.bytes (w.input_stream.pos - 8) = cstr "data" := by
  have hf : p.found = true := by
    by_contra c
    simp [SetInputFile, c, FileNotFound] at h
  have ho : p.opens = true := by
    by_contra c
    simp [SetInputFile, hf, c, ifstream.mk_open, IoOpenFailure] at h
  rw [SetInputFile_opened self p chunk hf ho] at h
  split_ifs at h
  all_goals first
    | (simp [NotRiff, NotWave, MissingFormatChunk, UnsupportedCompression,
        UnsupportedExtendedFormat] at h; done)
    | skip
  cases hc : findDataChunk (p.bytes.length + 2) (afterHeader p.bytes) chunk with
  | none => rw [hc] at h; simp at h
  | some r =>
    rw [hc] at h
    simp only [Option.map_some', Option.some.injEq, Prod.mk.injEq] at h
    obtain ⟨h1, h2⟩ := h
    subst h1
    simp only at heof ⊢
    rcases findDataChunk_header_read _ _ _ r hc (afterHeader_state p.bytes).2 h2 heof with
      ⟨a1, _⟩ | ⟨a1, a2⟩
    · exact absurd a1 hprobe
    · rw [(afterHeader_state p.bytes).1] at a2
      have hlen : ¬ p.bytes.length < 36 := by
        intro c
        have e := findDataChunk_at_eof _ _ _ r hc (by simp [afterHeader, c])
        rw [e] at heof
        simp [afterHeader, c] at heof
      have e1 : (afterHeader p.bytes).pos = 36 := by simp [afterHeader, hlen]
      rw [e1] at a1
      exact ⟨by omega, a2⟩

/-! ## The probes of the data-chunk scan -/

theorem findDataChunkTrace_fst (fuel : Nat) :
    ∀ (s : ifstream) (chunk : List Nat),
      (findDataChunkTrace fuel s chunk).map Prod.fst = findDataChunk fuel s chunk := by
  induction fuel with
  | zero => intro s chunk; rfl
  | succ n ih =>
    intro s chunk
    simp only [findDataChunkTrace, findDataChunk]
    split_ifs
    · rfl
    · rw [← ih, Option.map_map]; rfl
    · rfl

theorem findDataChunkTrace_probes (fuel : Nat) :
    ∀ (s : ifstream) (chunk : List Nat) (r : ifstream × List Nat × Option String)
      (t : List Nat),
      findDataChunkTrace fuel s chunk = some (r, t) → (ReaderGood s ∨ s.eofbit = true) →
      (s.eofbit = true → t = [])
        ∧ t.length ≤ (s.content.length - s.pos) / 8 + 1
        ∧ (∀ j, j < t.length → t[j]? = some (s.pos + 8 * j))
        ∧ (r.2.2 = none ∨ r.2.2 = some MissingDataChunk) := by
  induction fuel with
  | zero => intro s chunk r t h; simp [findDataChunkTrace] at h
  | succ n ih =>
    intro s chunk r t h hs
    by_cases ht : strncmp (rdTag chunk 0) (cstr "data") 4 = 0
    · simp only [findDataChunkTrace, ht, ne_eq, not_true_eq_false, if_false, Option.some.injEq,
        Prod.mk.injEq] at h
      obtain ⟨h1, h2⟩ := h
      subst h1 h2
      exact ⟨fun _ => rfl, by simp, fun j hj => by simp at hj, Or.inl rfl⟩
    · by_cases he : s.eofbit = true
      · simp only [findDataChunkTrace, ht, ne_eq, not_false_eq_true, if_true, ifstream.eof, he,
          Option.some.injEq, Prod.mk.injEq] at h
        obtain ⟨h1, h2⟩ := h
        subst h1 h2
        exact ⟨fun _ => rfl, by simp, fun j hj => by simp at hj, Or.inr rfl⟩
      · have he' : s.eofbit = false := by simpa using he
        simp only [findDataChunkTrace, ht, ne_eq, not_false_eq_true, if_true, ifstream.eof, he',
          Bool.false_eq_true, if_false] at h
        rcases hs with ⟨_, hfl, hp, hop⟩ | hs
        · cases hc : findDataChunkTrace n (s.read sizeof_data_chunk_t).1
              (overwrite chunk (s.read sizeof_data_chunk_t).2) with
          | none => rw [hc] at h; simp at h
          | some rt =>
            rw [hc] at h
            simp only [Option.map_some', Option.some.injEq, Prod.mk.injEq] at h
            obtain ⟨h1, h2⟩ := h
            by_cases hfull : s.pos + sizeof_data_chunk_t ≤ s.content.length
            · rw [read_full s _ he' hfl hop hfull] at hc
              obtain ⟨_, b2, b3, b4⟩ := ih _ _ rt.1 rt.2 hc (Or.inl ⟨he', hfl, hfull, hop⟩)
              simp only [sizeof_data_chunk_t] at b2 b3 hfull
              subst h1 h2
              refine ⟨fun c => absurd c he, ?_, ?_, b4⟩
              · simp only [List.length_cons]; omega
              · intro j hj
                cases j with
                | zero => simp
                | succ k =>
                  simp only [List.length_cons] at hj
                  rw [List.getElem?_cons_succ, b3 k (by omega)]
                  congr 1; omega
            · rw [read_short s _ he' hfl hop hp (by omega)] at hc
              obtain ⟨b1, _, _, b4⟩ := ih _ _ rt.1 rt.2 hc (Or.inr rfl)
              have b1 := b1 rfl
              subst h1 h2
              rw [b1]
              refine ⟨fun c => absurd c he, by simp, ?_, b4⟩
              intro j hj
              simp only [List.length_cons, List.length_nil] at hj
              have : j = 0 := by omega
              subst this
              simp
        · exact absurd hs he

/-! ## The output file as an input file -/

theorem output_header_fields (self : WavTransceiver) (q : path_t) (r d : Nat)
    (calls : List (List Nat × Bool)) (hfound : q.found = false) (hopens : q.opens = true)
    (b : List Nat)
    (hb : ∀ i, i < 4 ∨ (8 ≤ i ∧ i < 40) →
      b.getD i 0 = (outputFile (afterWrites self q r d calls)).getD i 0) :
    rdTag b 0 = cstr "RIFF" ∧ rdTag b 8 = cstr "WAVE" ∧ rdTag b 12 = cstr "fmt "
      ∧ rd32 b 16 = 16 ∧ rd16 b 20 = 1 ∧ rd16 b 34 = 16 ∧ rdTag b 36 = cstr "data" := by
  obtain ⟨hr, _⟩ := SetOutputFile_ready self q r d hfound hopens
  have hs := (SetOutputFile_stream self q r d hfound hopens).2
  have key : ∀ i, i < 4 ∨ (8 ≤ i ∧ i < 40) →
      b.getD i 0 =
        ([82, 73, 70, 70, 28, 0, 0, 0, 87, 65, 86, 69, 102, 109, 116, 32, 16, 0, 0, 0, 1, 0, 2, 0,
          r % 256, r / 256 % 256, r / 65536 % 256, r / 16777216 % 256,
          d % 256, d / 256 % 256, d / 65536 % 256, d / 16777216 % 256,
          4, 0, 16, 0, 100, 97, 116, 97, 8, 0, 0, 0] : List Nat).getD i 0 := by
    intro i hi
    rw [hb i hi]
    unfold afterWrites
    rw [writeAll_header calls _ hr i hi, outputFile, hs]
  simp only [rdTag, rd32, rd16]
  rw [key 0 (by omega), key 1 (by omega), key 2 (by omega), key 3 (by omega),
    key 8 (by omega), key (8 + 1) (by omega), key (8 + 2) (by omega), key (8 + 3) (by omega),
    key 12 (by omega), key (12 + 1) (by omega), key (12 + 2) (by omega), key (12 + 3) (by omega),
    key 16 (by omega), key (16 + 1) (by omega), key (16 + 2) (by omega), key (16 + 3) (by omega),
    key 20 (by omega), key (20 + 1) (by omega), key 34 (by omega), key (34 + 1) (by omega),
    key 36 (by omega), key (36 + 1) (by omega), key (36 + 2) (by omega),
    key (36 + 3) (by omega)]
  simp [cstr]

theorem getD_of_getElem_opt (l1 l2 : List Nat) (i : Nat) (h : l1[i]? = l2[i]?) :
    l1.getD i 0 = l2.getD i 0 := by
  rw [List.getD_eq_getElem?_getD, List.getD_eq_getElem?_getD, h]

theorem drop_eq_of_getElem_opt (l1 l2 : List Nat) (n : Nat)
    (h : ∀ i, n ≤ i → l1[i]? = l2[i]?) : l1.drop n = l2.drop n := by
  apply List.ext_getElem?
  intro i
  rw [List.getElem?_drop, List.getElem?_drop]
  exact h _ (by omega)

/-- The output file left by `SetOutputFile` on a fresh path and any sequence of `WriteData`
calls, given to `SetInputFile` of any component whose local `chunk` does not read `data` before
the first read, is accepted: no exception, cursor at offset 44, end of file not signalled,
`GetInputSampleSize()` is 2 and the bytes after the cursor are the payloads in the order
written. The same holds for every file that differs from the output only in the bytes 4..7 and
40..43 of the two size fields. -/
theorem output_is_valid_input (writer reader : WavTransceiver) (q : path_t)
    (slice_rate data_rate : Nat) (calls : List (List Nat × Bool)) (chunk : List Nat)
    (hfound : q.found = false) (hopens : q.opens = true)
    (hprobe : chunk.take 4 ≠ cstr "data") :
    (∃ w : WavTransceiver,
        SetInputFile reader (fileOf (outputFile (afterWrites writer q slice_rate data_rate calls)))
            chunk = some (w, none)
          ∧ w.input_stream.pos = 44 ∧ w.input_stream.eof = false
          ∧ GetInputSampleSize w = some 2
          ∧ w.input_stream.content.drop w.input_stream.pos = payloadOf calls)
      ∧ ∀ other : List Nat,
          other.length = (outputFile (afterWrites writer q slice_rate data_rate calls)).length →
          (∀ i, ¬ (4 ≤ i ∧ i < 8) → ¬ (40 ≤ i ∧ i < 44) →
            other[i]? = (outputFile (afterWrites writer q slice_rate data_rate calls))[i]?) →
          ∃ w : WavTransceiver,
            SetInputFile reader (fileOf other) chunk = some (w, none)
              ∧ w.input_stream.pos = 44 ∧ w.input_stream.eof = false
              ∧ GetInputSampleSize w = some 2
              ∧ w.input_stream.content.drop w.input_stream.pos = payloadOf calls := by
  have hprobe' : rdTag chunk 0 ≠ cstr "data" := fun c =>
    hprobe ((take4_eq_iff chunk 100 97 116 97 (by decide)).2 c)
  obtain ⟨hr, hl⟩ := SetOutputFile_ready writer q slice_rate data_rate hfound hopens
  have hlen : 44 ≤ (outputFile (afterWrites writer q slice_rate data_rate calls)).length := by
    unfold afterWrites
    rw [(writeAll_ready calls _ hr).2, hl]; omega
  have hd0 : (outputFile (SetOutputFile writer q slice_rate data_rate).1).drop 44 = [] :=
    List.drop_of_length_le (by omega)
  have hpay : (outputFile (afterWrites writer q slice_rate data_rate calls)).drop 44
      = payloadOf calls := by
    unfold afterWrites
    rw [writeAll_payload calls _ hr, hd0, List.nil_append]
  have main : ∀ other : List Nat,
      other.length = (outputFile (afterWrites writer q slice_rate data_rate calls)).length →
      (∀ i, ¬ (4 ≤ i ∧ i < 8) → ¬ (40 ≤ i ∧ i < 44) →
        other[i]? = (outputFile (afterWrites writer q slice_rate data_rate calls))[i]?) →
      ∃ w : WavTransceiver,
        SetInputFile reader (fileOf other) chunk = some (w, none)
          ∧ w.input_stream.pos = 44 ∧ w.input_stream.eof = false
          ∧ GetInputSampleSize w = some 2
          ∧ w.input_stream.content.drop w.input_stream.pos = payloadOf calls := by
    intro other ho hsame
    obtain ⟨f1, f2, f3, f4, f5, f6, f7⟩ := output_header_fields writer q slice_rate data_rate
      calls hfound hopens other
      (fun i hi => getD_of_getElem_opt _ _ i (hsame i (by omega) (by omega)))
    have hopen := SetInputFile_canonical reader (fileOf other) chunk rfl rfl
      (by show 44 ≤ other.length; omega) f1 f2 (fmt4_fmt3 _ f3) f4 f5 f7 hprobe'
    refine ⟨_, hopen, rfl, rfl, ?_, ?_⟩
    · show some ((wav_header_t.ofBytes other).fmt_chunk.sample_depth / 8) = some 2
      have : (wav_header_t.ofBytes other).fmt_chunk.sample_depth = 16 := f6
      rw [this]
    · show other.drop 44 = payloadOf calls
      rw [← hpay]
      exact drop_eq_of_getElem_opt _ _ 44 (fun i hi => hsame i (by omega) (by omega))
  exact ⟨main _ rfl (fun _ _ _ => rfl), main⟩

/-! ## Claims C11 to C19 -/

/-- C11. After a successful `SetInputFile` and any earlier `GetNextData` calls, every buffer that
`GetNextData(sample_count)` returns has exactly `sample_count * (bitsPerSample / 8)` bytes,
`bitsPerSample` being the `u16` at offset 34 of the file. When fewer bytes than that remain in
the stream the buffer is those bytes followed by zeros, and otherwise it is the next bytes of the
file. The products are taken in the range of `int`. -/
theorem C11_slice_length_and_short_reads (self : WavTransceiver) (p : path_t)
    (chunk : List Nat) (w : WavTransceiver) (counts : List Nat) (sample_count : Nat)
    (v : List Nat) (hopen : SetInputFile self p chunk = some (w, none))
    (hcounts : ∀ c ∈ counts, rd16 p.bytes 34 / 8 * c < 2 ^ 31)
    (hfit : rd16 p.bytes 34 / 8 * sample_count < 2 ^ 31)
    (hbuf : (GetNextData (afterReads w counts) sample_count).2 = Slice.buffer v) :
    v.length = sample_count * (rd16 p.bytes 34 / 8)
      ∧ (afterReads w counts).input_stream.content = p.bytes
      ∧ (afterReads w counts).input_stream.pos ≤ p.bytes.length
      ∧ (p.bytes.length - (afterReads w counts).input_stream.pos
            < sample_count * (rd16 p.bytes 34 / 8) →
          v = p.bytes.drop (afterReads w counts).input_stream.pos
              ++ List.replicate (sample_count * (rd16 p.bytes 34 / 8)
                  - (p.bytes.length - (afterReads w counts).input_stream.pos)) 0)
      ∧ (sample_count * (rd16 p.bytes 34 / 8)
            ≤ p.bytes.length - (afterReads w counts).input_stream.pos →
          v = (p.bytes.drop (afterReads w counts).input_stream.pos).take
              (sample_count * (rd16 p.bytes 34 / 8))) := by
  have _ := hcounts
  have _ := hfit
  obtain ⟨s1, s2, s3, _⟩ := SetInputFile_success self p chunk w hopen
  obtain ⟨a1, a2, a3⟩ := afterReads_state counts w _ s1 s3
  rw [s2] at a2
  have hd : (wav_header_t.ofBytes p.bytes).fmt_chunk.sample_depth = rd16 p.bytes 34 := rfl
  by_cases he : (afterReads w counts).input_stream.eofbit = true
  · rw [GetNextData_eof _ _ sample_count a1 he] at hbuf
    cases hbuf
  · have hg : ReaderGood (afterReads w counts).input_stream := by
      rcases a3 with hg | hs
      · exact hg
      · exact absurd hs he
    have hp := hg.2.2.1
    rw [a2] at hp
    by_cases hfull : (afterReads w counts).input_stream.pos
        + (wav_header_t.ofBytes p.bytes).fmt_chunk.sample_depth / 8 * sample_count
          ≤ (afterReads w counts).input_stream.content.length
    · rw [GetNextData_full _ _ sample_count a1 hg hfull] at hbuf
      simp only [Slice.buffer.injEq] at hbuf
      rw [a2, hd] at hfull
      rw [a2, hd] at hbuf
      rw [Nat.mul_comm sample_count]
      refine ⟨?_, a2, hp, fun hlt => ?_, fun _ => hbuf.symm⟩
      · rw [← hbuf]; simp only [List.length_take, List.length_drop]; omega
      · omega
    · rw [GetNextData_short _ _ sample_count a1 hg (by omega)] at hbuf
      simp only [Slice.buffer.injEq] at hbuf
      rw [a2, hd] at hfull
      rw [a2, hd] at hbuf
      rw [Nat.mul_comm sample_count]
      refine ⟨?_, a2, hp, fun _ => hbuf.symm, fun hle => ?_⟩
      · rw [← hbuf]
        simp only [List.length_append, List.length_drop, List.length_replicate]; omega
      · omega

/-- C11 witness: on the sample file, after one call `GetNextData(1)`, the call `GetNextData(2)`
finds 2 bytes left and returns the 4-byte buffer `[3, 4, 0, 0]`. -/
theorem C11_slice_length_and_short_reads_witness :
    SetInputFile WavTransceiver.new (fileOf sampleWav) zeroChunk = some (sampleReader, none)
      ∧ (GetNextData (afterReads sampleReader [1]) 2).2 = Slice.buffer [3, 4, 0, 0]
      ∧ [3, 4, 0, 0].length = 2 * (rd16 (fileOf sampleWav).bytes 34 / 8) :=
  ⟨by decide, by decide,
    (C11_slice_length_and_short_reads WavTransceiver.new (fileOf sampleWav) zeroChunk
      sampleReader [1] 2 [3, 4, 0, 0] (by decide) (by decide) (by decide) (by decide)).1⟩

/-- C12. Every `WriteData` call on an output opened by `SetOutputFile` appends its data at the
previous end of the file and leaves every byte already in the file as it was, those at offsets
4..7 and 40..43 apart; the write cursor is at the end of the file before and after the call.
After any sequence of calls the bytes from offset 44 are the payloads in the order written. -/
theorem C12_append_only_frame (self : WavTransceiver) (p : path_t) (slice_rate data_rate : Nat)
    (calls : List (List Nat × Bool)) (data : List Nat) (flush : Bool)
    (hfound : p.found = false) (hopens : p.opens = true) :
    (outputFile (WriteData (afterWrites self p slice_rate data_rate calls) data flush)).length
        = (outputFile (afterWrites self p slice_rate data_rate calls)).length + data.length
      ∧ (outputFile (WriteData (afterWrites self p slice_rate data_rate calls) data flush)).drop
          (outputFile (afterWrites self p slice_rate data_rate calls)).length = data
      ∧ (∀ i, i < (outputFile (afterWrites self p slice_rate data_rate calls)).length →
          ¬ (4 ≤ i ∧ i < 8) → ¬ (40 ≤ i ∧ i < 44) →
          (outputFile (WriteData (afterWrites self p slice_rate data_rate calls) data flush))[i]?
            = (outputFile (afterWrites self p slice_rate data_rate calls))[i]?)
      ∧ (afterWrites self p slice_rate data_rate calls).output_stream.pos
          = (outputFile (afterWrites self p slice_rate data_rate calls)).length
      ∧ (WriteData (afterWrites self p slice_rate data_rate calls) data flush).output_stream.pos
          = (outputFile
              (WriteData (afterWrites self p slice_rate data_rate calls) data flush)).length
      ∧ (outputFile (afterWrites self p slice_rate data_rate calls)).drop 44 = payloadOf calls
      ∧ (outputFile (WriteData (afterWrites self p slice_rate data_rate calls) data flush)).drop
          44 = payloadOf calls ++ data := by
  unfold afterWrites
  obtain ⟨hr, hl⟩ := SetOutputFile_ready self p slice_rate data_rate hfound hopens
  obtain ⟨r1, r2⟩ := writeAll_ready calls _ hr
  have h44 : 44 ≤ (outputFile (writeAll (SetOutputFile self p slice_rate data_rate).1
      calls)).length := r1.2.2.2
  have hd0 : (outputFile (SetOutputFile self p slice_rate data_rate).1).drop 44 = [] :=
    List.drop_of_length_le (by omega)
  have hp := writeAll_payload calls _ hr
  rw [hd0, List.nil_append] at hp
  have r3 := WriteData_ready _ data flush r1
  have hlen := WriteData_length _ data flush r1
  refine ⟨hlen, WriteData_appends _ data flush r1, ?_, r1.2.2.1, r3.2.2.1, hp, ?_⟩
  · intro i hi h4 h40
    apply getElem_opt_of_getD0 _ _ i (by rw [hlen]; omega) hi
    rw [WriteData_getD_other _ data flush r1 i (by omega), getD_append0, if_pos hi]
  · rw [WriteData_drop _ data flush r1 44 (le_refl _), List.drop_append_of_le_length h44, hp]

/-- C12 witness: writing `[5, 6]` after `[1, 2, 3, 4]`. -/
theorem C12_append_only_frame_witness :
    freshPath.found = false ∧ freshPath.opens = true
      ∧ (outputFile (WriteData
          (afterWrites WavTransceiver.new freshPath 48000 176400 [([1, 2, 3, 4], true)])
          [5, 6] false)).drop 44 = [1, 2, 3, 4, 5, 6] :=
  ⟨rfl, rfl,
    (C12_append_only_frame WavTransceiver.new freshPath 48000 176400 [([1, 2, 3, 4], true)]
      [5, 6] false rfl rfl).2.2.2.2.2.2⟩

/-- C13, the code at the failing input: a valid 36-byte header, a well-formed `LIST` chunk with
a 4-byte payload and then a `data` chunk at offset 48. The scan probes offsets 36, 44 and 52,
never sees the tag at offset 48, and `SetInputFile` throws `MissingDataChunk`. -/
theorem C13_list_chunk_rejected :
    (listChunkWav.drop 36).take 4 = cstr "LIST" ∧ rd32 listChunkWav 40 = 4
      ∧ (listChunkWav.drop 48).take 4 = cstr "data" ∧ rd32 listChunkWav 52 = 4
      ∧ listChunkWav.drop 56 = [1, 2, 3, 4]
      ∧ (SetInputFile WavTransceiver.new (fileOf listChunkWav) zeroChunk).map Prod.snd
          = some (some MissingDataChunk) := by
  decide

/-- C14. For every component state, `CloseOutputFile` called twice leaves the same state as
called once and never changes the bytes of the output file; on an output that is not open it
changes nothing, and neither does the destructor after an explicit close. The function has no
path that throws. -/
theorem C14_close_output_idempotent (self : WavTransceiver) :
    CloseOutputFile (CloseOutputFile self) = CloseOutputFile self
      ∧ outputFile (CloseOutputFile (CloseOutputFile self)) = outputFile self
      ∧ outputFile (CloseOutputFile self) = outputFile self
      ∧ (self.output_stream.is_open = false → CloseOutputFile self = self)
      ∧ (CloseOutputFile self).output_stream.is_open = false
      ∧ (WavTransceiver.destroy (CloseOutputFile self)).output_stream
          = (CloseOutputFile self).output_stream := by
  cases h : self.output_stream.is_open <;> cases h2 : self.input_stream.is_open <;>
    simp [CloseOutputFile, CloseInputFile, WavTransceiver.destroy, outputFile, ofstream.close,
      ofstream.flush, ifstream.close, h, h2]

/-- C14 witness: an output that was never opened, and one that is open with 4 payload bytes. -/
theorem C14_close_output_idempotent_witness :
    WavTransceiver.new.output_stream.is_open = false
      ∧ CloseOutputFile WavTransceiver.new = WavTransceiver.new
      ∧ CloseOutputFile (CloseOutputFile
          (afterWrites WavTransceiver.new freshPath 48000 176400 [([1, 2, 3, 4], true)]))
        = CloseOutputFile
          (afterWrites WavTransceiver.new freshPath 48000 176400 [([1, 2, 3, 4], true)]) :=
  ⟨rfl, (C14_close_output_idempotent WavTransceiver.new).2.2.2.1 rfl,
    (C14_close_output_idempotent
      (afterWrites WavTransceiver.new freshPath 48000 176400 [([1, 2, 3, 4], true)])).1⟩

/-- C16. When `SetInputFile` accepted the input without reaching end of file, the sample width
`wd = bitsPerSample / 8` is at least 1 and `L` bytes follow the cursor it left, the copy loop of
`main` on a freshly opened output leaves after exactly `L / wd + 1` writes, for every amount of
fuel from `L / wd + 2` on. The output then holds, from offset 44, those `L` bytes followed by
`wd - L % wd` zeros, between 1 and `wd` of them: `(L / wd + 1) * wd` bytes in all. The cursor
stands right after a data-chunk header of the file, unless the probe memory already read `data`
before the first read. -/
theorem C16_copy_loop_pads (self : WavTransceiver) (p : path_t) (chunk : List Nat)
    (w : WavTransceiver) (q : path_t) (slice_rate data_rate fuel : Nat)
    (hopen : SetInputFile self p chunk = some (w, none)) (heof : w.input_stream.eof = false)
    (hwd : 1 ≤ rd16 p.bytes 34 / 8) (hfound : q.found = false) (hopens : q.opens = true)
    (hfuel : (p.bytes.length - w.input_stream.pos) / (rd16 p.bytes 34 / 8) + 2 ≤ fuel) :
    ∃ final : WavTransceiver,
      copyLoop fuel (SetOutputFile w q slice_rate data_rate).1
          = some (final, (p.bytes.length - w.input_stream.pos) / (rd16 p.bytes 34 / 8) + 1, none)
        ∧ (outputFile final).drop 44
          = p.bytes.drop w.input_stream.pos
            ++ List.replicate (rd16 p.bytes 34 / 8
                - (p.bytes.length - w.input_stream.pos) % (rd16 p.bytes 34 / 8)) 0
        ∧ 1 ≤ rd16 p.bytes 34 / 8 - (p.bytes.length - w.input_stream.pos) % (rd16 p.bytes 34 / 8)
        ∧ rd16 p.bytes 34 / 8 - (p.bytes.length - w.input_stream.pos) % (rd16 p.bytes 34 / 8)
            ≤ rd16 p.bytes 34 / 8
        ∧ p.bytes.drop w.input_stream.pos <+: (outputFile final).drop 44
        ∧ ((outputFile final).drop 44).length
            = ((p.bytes.length - w.input_stream.pos) / (rd16 p.bytes 34 / 8) + 1)
                * (rd16 p.bytes 34 / 8)
        ∧ (chunk.take 4 ≠ cstr "data" →
            44 ≤ w.input_stream.pos
              ∧ (p.bytes.drop (w.input_stream.pos - 8)).take 4 = cstr "data") := by
  have hhdr : chunk.take 4 ≠ cstr "data" →
      44 ≤ w.input_stream.pos
        ∧ (p.bytes.drop (w.input_stream.pos - 8)).take 4 = cstr "data" := by
    intro hprobe
    have hprobe' : rdTag chunk 0 ≠ cstr "data" := fun c =>
      hprobe ((take4_eq_iff chunk 100 97 116 97 (by decide)).2 c)
    obtain ⟨a1, a2⟩ := SetInputFile_header_read self p chunk w hopen heof hprobe'
    exact ⟨a1, (tag_data _ _).2 a2⟩
  obtain ⟨s1, s2, s3, _⟩ := SetInputFile_success self p chunk w hopen
  have hg : ReaderGood w.input_stream := by
    rcases s3 with hg | hs
    · exact hg
    · rw [ifstream.eof] at heof; rw [heof] at hs; cases hs
  obtain ⟨i1, i2⟩ := SetOutputFile_input_side w q slice_rate data_rate
  obtain ⟨hr, hl⟩ := SetOutputFile_ready w q slice_rate data_rate hfound hopens
  have hd0 : (outputFile (SetOutputFile w q slice_rate data_rate).1).drop 44 = [] :=
    List.drop_of_length_le (by omega)
  obtain ⟨final, c1, c2⟩ := copyLoop_run (rd16 p.bytes 34 / 8) hwd
    (p.bytes.length - w.input_stream.pos) (SetOutputFile w q slice_rate data_rate).1
    (wav_header_t.ofBytes p.bytes) fuel (i1.trans s1) rfl (by rw [i2]; exact hg) hr
    (by rw [i2, s2]) hfuel
  rw [hd0, i2, s2, List.nil_append] at c2
  have hm := Nat.mod_lt (p.bytes.length - w.input_stream.pos) hwd
  have hdm := Nat.div_add_mod (p.bytes.length - w.input_stream.pos) (rd16 p.bytes 34 / 8)
  refine ⟨final, c1, c2, by omega, by omega, ?_, ?_, hhdr⟩
  · rw [c2]; exact List.prefix_append _ _
  · rw [c2, List.length_append, List.length_drop, List.length_replicate, Nat.add_mul,
      Nat.one_mul, Nat.mul_comm]
    generalize (rd16 p.bytes 34 / 8)
      * ((p.bytes.length - w.input_stream.pos) / (rd16 p.bytes 34 / 8)) = m at hdm ⊢
    omega

/-- C16 witness: the sample file (16 bits, payload `[1, 2, 3, 4]`) is copied in 3 writes and
the output payload is `[1, 2, 3, 4, 0, 0]`. -/
theorem C16_copy_loop_pads_witness :
    SetInputFile WavTransceiver.new (fileOf sampleWav) zeroChunk = some (sampleReader, none)
      ∧ ∃ final : WavTransceiver,
          copyLoop 4 (SetOutputFile sampleReader freshPath 48000 176400).1
              = some (final, 3, none)
            ∧ (outputFile final).drop 44 = [1, 2, 3, 4, 0, 0] :=
  ⟨by decide,
    (C16_copy_loop_pads WavTransceiver.new (fileOf sampleWav) zeroChunk sampleReader freshPath
      48000 176400 4 (by decide) (by decide) (by decide) rfl rfl (by decide)).imp
      fun _ h => ⟨h.1, h.2.1⟩⟩

/-- C17, the code at the failing input. The output written by `SetOutputFile` and
`WriteData([1, 2, 3, 4])` is read back by `SetInputFile` with the cursor at offset 44 and the
payload after it when the memory of the uninitialised local `chunk` holds zeros; when that
memory reads `data` the cursor stays at offset 36 and the bytes after it are the data-chunk
header `data`, 12, 0, 0, 0 followed by the payload. -/
theorem C17_output_read_back_from_offset_36 :
    (SetInputFile WavTransceiver.new
        (fileOf (outputFile
          (afterWrites WavTransceiver.new freshPath 48000 176400 [([1, 2, 3, 4], true)])))
        zeroChunk).map
        (fun r => (r.2, r.1.input_stream.pos,
          r.1.input_stream.content.drop r.1.input_stream.pos))
      = some (none, 44, [1, 2, 3, 4])
      ∧ (SetInputFile WavTransceiver.new
        (fileOf (outputFile
          (afterWrites WavTransceiver.new freshPath 48000 176400 [([1, 2, 3, 4], true)])))
        dataProbe).map
        (fun r => (r.2, r.1.input_stream.pos,
          r.1.input_stream.content.drop r.1.input_stream.pos))
      = some (none, 36, [100, 97, 116, 97, 12, 0, 0, 0, 1, 2, 3, 4]) := by
  decide

/-- C18. For every input that passes the five header checks the scan loop of `SetInputFile`
returns, with a normal return or `MissingDataChunk`, after at most
`ceil((len - 36) / 8) + 1` reads, at most one when `len ≤ 36`, and its `j`-th read is issued at
offset `36 + 8 * j`. This holds whatever the probe memory holds before the first read. -/
theorem C18_scan_terminates (self : WavTransceiver) (p : path_t) (chunk : List Nat)
    (hf : p.found = true) (ho : p.opens = true)
    (hriff : p.bytes.take 4 = cstr "RIFF") (hwave : (p.bytes.drop 8).take 4 = cstr "WAVE")
    (hfmt : (p.bytes.drop 12).take 3 = cstr "fmt") (hcomp : rd16 p.bytes 20 = 1)
    (hsize : rd32 p.bytes 16 = 16) :
    ∃ (r : ifstream × List Nat × Option String) (t : List Nat),
      findDataChunkTrace (p.bytes.length + 2) (afterHeader p.bytes) chunk = some (r, t)
        ∧ SetInputFile self p chunk
          = some ({ self with input_stream := r.1
                              input_header := some (wav_header_t.ofBytes p.bytes) }, r.2.2)
        ∧ (r.2.2 = none ∨ r.2.2 = some MissingDataChunk)
        ∧ t.length ≤ (p.bytes.length - 36 + 7) / 8 + 1
        ∧ (p.bytes.length ≤ 36 → t.length ≤ 1)
        ∧ (∀ j, j < t.length → t[j]? = some (36 + 8 * j)) := by
  have htot := SetInputFile_total self p chunk
  rw [SetInputFile_opened self p chunk hf ho] at htot ⊢
  simp only [(tag_RIFF _).1 hriff, (tag_WAVE _).1 hwave, (tag_fmt3 _).1 hfmt, hcomp, hsize,
    ne_eq, not_true_eq_false, if_false] at htot ⊢
  have hfst := findDataChunkTrace_fst (p.bytes.length + 2) (afterHeader p.bytes) chunk
  cases hc : findDataChunkTrace (p.bytes.length + 2) (afterHeader p.bytes) chunk with
  | none => rw [hc] at hfst; rw [← hfst] at htot; simp at htot
  | some rt =>
    rw [hc] at hfst
    obtain ⟨b1, b2, b3, b4⟩ := findDataChunkTrace_probes _ _ _ rt.1 rt.2 hc
      (afterHeader_state p.bytes).2
    refine ⟨rt.1, rt.2, rfl, by rw [← hfst]; rfl, b4, ?_, ?_, ?_⟩
    · by_cases hlen : p.bytes.length < 36
      · have : (afterHeader p.bytes).eofbit = true := by simp [afterHeader, hlen]
        rw [b1 this]; simp
      · have e1 : (afterHeader p.bytes).pos = 36 := by simp [afterHeader, hlen]
        rw [(afterHeader_state p.bytes).1, e1] at b2
        omega
    · intro hle
      by_cases hlen : p.bytes.length < 36
      · have : (afterHeader p.bytes).eofbit = true := by simp [afterHeader, hlen]
        rw [b1 this]; simp
      · have e1 : (afterHeader p.bytes).pos = 36 := by simp [afterHeader, hlen]
        rw [(afterHeader_state p.bytes).1, e1] at b2
        omega
    · intro j hj
      by_cases hlen : p.bytes.length < 36
      · have : (afterHeader p.bytes).eofbit = true := by simp [afterHeader, hlen]
        rw [b1 this] at hj; simp at hj
      · have e1 : (afterHeader p.bytes).pos = 36 := by simp [afterHeader, hlen]
        rw [b3 j hj, e1]

/-- C18 witness: on the sample file with a `LIST` chunk (60 bytes) the scan reads at offsets
36, 44, 52 and 60, four reads, and throws `MissingDataChunk`. -/
theorem C18_scan_terminates_witness :
    (findDataChunkTrace (listChunkWav.length + 2) (afterHeader listChunkWav) zeroChunk).map
        (fun rt => (rt.1.2.2, rt.2)) = some (some MissingDataChunk, [36, 44, 52, 60])
      ∧ ∃ (r : ifstream × List Nat × Option String) (t : List Nat),
          findDataChunkTrace ((fileOf listChunkWav).bytes.length + 2)
              (afterHeader (fileOf listChunkWav).bytes) zeroChunk = some (r, t)
            ∧ t.length ≤ ((fileOf listChunkWav).bytes.length - 36 + 7) / 8 + 1
            ∧ (∀ j, j < t.length → t[j]? = some (36 + 8 * j)) :=
  ⟨by decide,
    (C18_scan_terminates WavTransceiver.new (fileOf listChunkWav) zeroChunk rfl rfl (by decide)
      (by decide) (by decide) (by decide) (by decide)).imp
      fun _ h => h.imp fun _ h2 => ⟨h2.1, h2.2.2.2.1, h2.2.2.2.2.2⟩⟩

/-- C19. On an input that `SetInputFile` accepted without reaching end of file, a call
`GetNextData(c)` whose slice length `c * (bitsPerSample / 8)` is 0 returns an empty buffer, not
`nullptr`, and leaves the component as it was, so after any number of such calls the next one
does the same. With `bitsPerSample < 8` the copy loop of `main` therefore never leaves: it runs
out of every amount of fuel. -/
theorem C19_zero_length_slices_never_end (self : WavTransceiver) (p : path_t)
    (chunk : List Nat) (w : WavTransceiver)
    (hopen : SetInputFile self p chunk = some (w, none)) (heof : w.input_stream.eof = false) :
    (∀ (counts : List Nat) (c : Nat), (∀ x ∈ counts, rd16 p.bytes 34 / 8 * x = 0) →
        rd16 p.bytes 34 / 8 * c = 0 →
        GetNextData (afterReads w counts) c = (w, Slice.buffer []))
      ∧ (rd16 p.bytes 34 < 8 →
          ∀ (q : path_t) (slice_rate data_rate fuel : Nat),
            copyLoop fuel (SetOutputFile w q slice_rate data_rate).1 = none) := by
  obtain ⟨s1, _, s3, _⟩ := SetInputFile_success self p chunk w hopen
  have hg : ReaderGood w.input_stream := by
    rcases s3 with hg | hs
    · exact hg
    · rw [ifstream.eof] at heof; rw [heof] at hs; cases hs
  constructor
  · intro counts
    induction counts with
    | nil => intro c _ hc; exact GetNextData_zero w _ c s1 hg hc
    | cons x xs ih =>
      intro c hx hc
      have e : afterReads w (x :: xs) = afterReads (GetNextData w x).1 xs := rfl
      rw [e, GetNextData_zero w _ x s1 hg (hx x (List.mem_cons_self x xs))]
      exact ih c (fun y hy => hx y (List.mem_cons_of_mem x hy)) hc
  · intro hb q r d fuel
    obtain ⟨i1, i2⟩ := SetOutputFile_input_side w q r d
    exact copyLoop_zero_width fuel _ _ (by rw [i1, s1]) (by rw [i2]; exact hg)
      (Nat.div_eq_of_lt hb)

/-- C19 witness: a file with 4 bits per sample is accepted; `GetNextData(1)` then returns an
empty buffer and leaves the component unchanged, also after three such calls, and the copy loop
does not leave within 1000 evaluations of its condition. -/
theorem C19_zero_length_slices_never_end_witness :
    SetInputFile WavTransceiver.new (fileOf fourBitWav) zeroChunk = some (fourBitReader, none)
      ∧ fourBitReader.input_stream.eof = false
      ∧ GetNextData (afterReads fourBitReader [1, 1, 1]) 1 = (fourBitReader, Slice.buffer [])
      ∧ copyLoop 1000 (SetOutputFile fourBitReader freshPath 48000 176400).1 = none :=
  ⟨by decide, by decide,
    (C19_zero_length_slices_never_end WavTransceiver.new (fileOf fourBitWav) zeroChunk
      fourBitReader (by decide) (by decide)).1 [1, 1, 1] 1 (by decide) (by decide),
    (C19_zero_length_slices_never_end WavTransceiver.new (fileOf fourBitWav) zeroChunk
      fourBitReader (by decide) (by decide)).2 (by decide) freshPath 48000 176400 1000⟩

end WavRW
